import Mathlib

/-!
# Verification of the zen-session audio backend

Shallow embedding, over exact rationals, of the audio-processing core of the
backend (`utils.py`, `audio_io.py`, `audio_stats.py`, `mixdown.py`):
PCM encode/decode, WAV save, fade, RMS normalisation, linear resampling,
sidechain ducking and the stem-availability wait loop.

Conventions of the embedding:
* numpy float arrays become `List ℚ` (exact arithmetic; float rounding is
  not modelled, so "within floating tolerance" claims become equalities);
* raw byte buffers become `List ℕ` whose entries are the byte values;
* Python exceptions become `Except String` / `Option`;
* a numpy cast of a float to an integer type truncates toward zero, which
  `truncZ` models; Python's `round` is round-half-to-even, `pyRound`.
-/

set_option autoImplicit false

namespace ZenAudio

/-- `np.clip(x, -1.0, 1.0)` on one sample. -/
def clip1 (x : ℚ) : ℚ := max (-1) (min 1 x)

/-- `np.clip(signal, -1.0, 1.0)` on a whole signal. -/
def clipSig (s : List ℚ) : List ℚ := s.map clip1

/-- Generic `np.clip(x, lo, hi)` on one value (used for the duck mask). -/
def clipTo (lo hi x : ℚ) : ℚ := max lo (min hi x)

/-- C-style float→int cast (`np.int16(...)`, `int(...)`): truncation toward
zero. -/
def truncZ (q : ℚ) : ℤ := if 0 ≤ q then ⌊q⌋ else ⌈q⌉

/-- Python's built-in `round` to an integer: round half to even. -/
def pyRound (q : ℚ) : ℤ :=
  if q - ⌊q⌋ = 1/2 then (if 2 ∣ ⌊q⌋ then ⌊q⌋ else ⌊q⌋ + 1) else round q

/-- Two's-complement reading of an unsigned `bits`-bit value, as numpy's
signed integer dtypes do. -/
def toSigned (v : ℕ) (bits : ℕ) : ℤ :=
  if 2 ^ (bits - 1) ≤ v then (v : ℤ) - 2 ^ bits else (v : ℤ)

/-! ## `audio_io._decode_pcm`

`_decode_pcm(raw, sampwidth)` decodes a raw byte buffer into float samples.
`np.frombuffer` fails when the buffer length is not a multiple of the item
size; the grouping functions below return `none` in that case.  The 24-bit
branch combines the three bytes exactly as the source does, with bitwise or
and shifts. -/

/-- Group a byte list into little-endian 16-bit values (`np.frombuffer`
with `dtype=np.int16`, before the sign interpretation). -/
def groups2 : List ℕ → Option (List ℕ)
  | [] => some []
  | b0 :: b1 :: rest => (groups2 rest).map (fun g => (b0 + 256 * b1) :: g)
  | _ => none

/-- Group a byte list into 3-byte values combined as
`b0 | (b1 << 8) | (b2 << 16)` (the source's 24-bit branch). -/
def groups3 : List ℕ → Option (List ℕ)
  | [] => some []
  | b0 :: b1 :: b2 :: rest =>
      (groups3 rest).map (fun g => (b0 ||| (b1 <<< 8) ||| (b2 <<< 16)) :: g)
  | _ => none

/-- Group a byte list into little-endian 32-bit values (`np.frombuffer`
with `dtype=np.int32`, before the sign interpretation). -/
def groups4 : List ℕ → Option (List ℕ)
  | [] => some []
  | b0 :: b1 :: b2 :: b3 :: rest =>
      (groups4 rest).map
        (fun g => (b0 + 256 * b1 + 65536 * b2 + 16777216 * b3) :: g)
  | _ => none

/-- The source's 24-bit sign-extension step:
`np.where(signed & 0x800000, signed - 0x1000000, signed)`. -/
def signExtend24 (v : ℕ) : ℤ :=
  if v &&& 0x800000 ≠ 0 then (v : ℤ) - 0x1000000 else (v : ℤ)

/-- `_decode_pcm(raw, sampwidth)` from `audio_io.py`: maps PCM bytes to
float samples in `[-1, 1]`; raises (here: `Except.error`) on an unsupported
width, and `np.frombuffer`/`reshape` raise on a misaligned buffer length. -/
def decodePcm (raw : List ℕ) (sampwidth : ℕ) : Except String (List ℚ) :=
  if sampwidth = 1 then
    .ok (raw.map (fun x => ((x : ℚ) - 128) / 128))
  else if sampwidth = 2 then
    match groups2 raw with
    | some g => .ok (g.map (fun v => (toSigned v 16 : ℚ) / 32768))
    | none => .error "buffer size must be a multiple of element size"
  else if sampwidth = 3 then
    match groups3 raw with
    | some g => .ok (g.map (fun v => (signExtend24 v : ℚ) / 8388608))
    | none => .error "cannot reshape array"
  else if sampwidth = 4 then
    match groups4 raw with
    | some g => .ok (g.map (fun v => (toSigned v 32 : ℚ) / 2147483648))
    | none => .error "buffer size must be a multiple of element size"
  else
    .error ("Unsupported WAV sample width: " ++ toString sampwidth)

/-! ## `utils.save_wave`

`save_wave` clips the signal to `[-1, 1]` and converts to 16-bit PCM via
`np.int16(chunk * 32767)` — a truncating cast — then writes the two bytes
of each sample little-endian.  The chunked write loop only affects memory
use, not the written bytes, so the embedding maps over the whole signal. -/

/-- The 16-bit integer `save_wave` stores for one input sample. -/
def encodeSample16 (x : ℚ) : ℤ := truncZ (clip1 x * 32767)

/-- The two little-endian bytes `int16.tobytes()` writes for one 16-bit
value (two's complement). -/
def int16ToBytes (v : ℤ) : List ℕ :=
  [((v % 65536).toNat) % 256, ((v % 65536).toNat) / 256]

/-- The sample-data bytes `save_wave` writes for a (flat, interleaved)
signal. -/
def saveWaveBytes (s : List ℚ) : List ℕ :=
  (s.map encodeSample16).flatMap int16ToBytes

/-! ## `utils.fade`

`fade(signal, fade_time, sr)` computes `n = int(fade_time * sr)` (truncating
cast), is a no-op when `n == 0 or n * 2 > len(signal)`, and otherwise
multiplies the first `n` samples by `np.linspace(0, 1, n)` and the last `n`
by its reverse.  `np.linspace(0, 1, n)[i] = i / (n - 1)` (and `[0.0]` when
`n = 1`, which `i / (n-1)` also gives over ℚ since `0 / 0 = 0`); a negative
`n` reaches `np.linspace(0, 1, n)` which raises `ValueError`. -/

/-- `np.linspace(0.0, 1.0, n)` entry `i` (for `i < n`). -/
def linspace01 (n i : ℕ) : ℚ := (i : ℚ) / ((n : ℚ) - 1)

/-- The ramp multiplication step of `fade` for fade length `n ≥ 0`:
`out[:n] *= window; out[-n:] *= window[::-1]`. -/
def fadeApply (s : List ℚ) (n : ℕ) : List ℚ :=
  s.mapIdx (fun i x =>
    if i < n then x * linspace01 n i
    else if s.length - n ≤ i then x * linspace01 n (s.length - 1 - i)
    else x)

/-- `fade(signal, fade_time, sr)` from `utils.py`. -/
def fade (s : List ℚ) (fadeTime : ℚ) (sr : ℕ) : Except String (List ℚ) :=
  let n : ℤ := truncZ (fadeTime * sr)
  if n = 0 ∨ n * 2 > s.length then .ok s
  else if n < 0 then .error "Number of samples must be non-negative"
  else .ok (fadeApply s n.toNat)

/-! ## `utils.normalize`

`normalize(signal, target_db)` computes
`rms = sqrt(dot(flat, flat)/size + 1e-9)`, `target_linear = 10^(target_db/20)`,
returns the signal unchanged when `rms == 0.0` (dead branch: the `1e-9`
regulariser makes `rms > 0` always), and otherwise scales the signal in
place by `target_linear / rms`.

The square root and the power `10^(target_db/20)` are irrational, so the
embedding works in the *squared* domain: `target_linear` becomes a parameter
`t` (any value of `10^(target_db/20)`, always `> 0`), and the function below
returns the squared gain `(target_linear/rms)^2` the source applies.  Output
sample `i` is input sample `i` times the (positive) square root of this gain,
so the output mean square is the input mean square times this gain, and a
zero sample stays zero. -/

/-- `float(np.dot(flat, flat))`: sum of squared samples. -/
def sumSq (s : List ℚ) : ℚ := (s.map (fun x => x * x)).sum

/-- Mean square of a signal (`dot/size`; `0` for the empty signal). -/
def meanSq (s : List ℚ) : ℚ := sumSq s / s.length

/-- The squared value of the `rms` variable in `normalize`:
`dot/size + 1e-9`. -/
def rmsSqReg (s : List ℚ) : ℚ := meanSq s + 1/1000000000

/-- The squared gain `normalize` applies to a non-empty signal whose
(regularised) RMS is nonzero, given `t = target_linear`. -/
def normGainSq (s : List ℚ) (t : ℚ) : ℚ := t ^ 2 / rmsSqReg s

/-- Mean square of the signal `normalize(signal, target_db)` returns, in
terms of `t = target_linear = 10^(target_db/20)`.  Follows the source's
branches: empty input and `rms == 0` return the input unchanged. -/
def normalizeMeanSq (s : List ℚ) (t : ℚ) : ℚ :=
  if s.length = 0 then meanSq s
  else if rmsSqReg s = 0 then meanSq s
  else meanSq s * normGainSq s t

/-- The signal `normalize` returns, given the gain `g = target_linear/rms`
it applies in place (`signal *= g`); the `size == 0` branch returns the
empty signal unchanged (the `rms == 0` branch is dead, see `rmsSqReg`).
The gain is a parameter because `rms` is an irrational square root over ℚ;
it is the nonnegative solution of `g^2 = normGainSq s t`. -/
def normalizeWith (s : List ℚ) (g : ℚ) : List ℚ :=
  if s.length = 0 then s else s.map (fun x => x * g)

/-! ## `audio_io.read_wave` / `read_wave_mono`

`read_wave` decodes the raw frames with `_decode_pcm`, reshapes to
`(n, nch)` when `nch > 1`, and returns `np.clip(x, -1.0, 1.0)`.
`read_wave_mono` additionally takes the per-frame channel mean.  The
embedding keeps the flat sample list plus the channel count. -/

/-- Samples `read_wave` returns (flat, interleaved), given the file's raw
data bytes and sample width. -/
def readWaveSamples (raw : List ℕ) (sampwidth : ℕ) : Except String (List ℚ) :=
  (decodePcm raw sampwidth).map clipSig

/-- Split a flat interleaved list into frames of `nch` samples
(`x.reshape(-1, nch)`); faithful when `nch` divides the length. -/
def frames (nch : ℕ) : List ℚ → List (List ℚ)
  | [] => []
  | x :: xs => match nch with
    | 0 => []
    | n + 1 => ((x :: xs).take (n + 1)) :: frames (n + 1) ((x :: xs).drop (n + 1))
  termination_by l => l.length
  decreasing_by
    simp only [List.length_drop, List.length_cons]
    omega

/-- Arithmetic mean of a list (`.mean(axis=1)` on one frame). -/
def listMean (l : List ℚ) : ℚ := l.sum / l.length

/-- Samples `read_wave_mono` returns: channel mean per frame when the file
is multi-channel, the clipped samples otherwise. -/
def readWaveMonoSamples (raw : List ℕ) (sampwidth nch : ℕ) :
    Except String (List ℚ) :=
  (readWaveSamples raw sampwidth).map
    (fun x => if nch > 1 then (frames nch x).map listMean else x)

/-! ## `audio_io.resample_linear`

`resample_linear(signal, sr_in, sr_out)` returns the signal unchanged when
the rates are equal or the signal has fewer than 2 samples; otherwise it
evaluates `np.interp` at `round(len * sr_out/sr_in)` equally spaced points
of `[0, 1]` against the input placed at equally spaced points of `[0, 1]`.
`np.interp` clamps queries outside the node range and interpolates linearly
between adjacent nodes. -/

/-- `np.linspace(0.0, 1.0, n)` as a list. -/
def linspaceList (n : ℕ) : List ℚ := (List.range n).map (linspace01 n)

/-- `np.interp(t, xp, fp)` at a single query point `t`: clamp outside
`[xp.head, xp.last]`, linear interpolation between adjacent nodes inside.
The unreachable mismatched-length cases return `0`. -/
def interpPoint : List ℚ → List ℚ → ℚ → ℚ
  | [_], f0 :: _, _ => f0
  | x0 :: x1 :: xs, f0 :: f1 :: fs, t =>
      if t ≤ x0 then f0
      else if t ≤ x1 then f0 + (t - x0) * (f1 - f0) / (x1 - x0)
      else interpPoint (x1 :: xs) (f1 :: fs) t
  | _, _, _ => 0

/-- `resample_linear` from `audio_io.py` on one channel. -/
def resampleLinear (s : List ℚ) (srIn srOut : ℕ) : List ℚ :=
  if srIn = srOut then s
  else if s.length < 2 then s
  else
    let ratio : ℚ := (srOut : ℚ) / (srIn : ℚ)
    let nOut : ℕ := (pyRound ((s.length : ℚ) * ratio)).toNat
    (linspaceList nOut).map (interpPoint (linspaceList s.length) s)

/-! ## `mixdown.py`: settings, envelope follower and sidechain ducking -/

/-- `MixSettings` from `mixdown.py`, with the source's default values
(floats as exact rationals). -/
structure MixSettings where
  voice_volume : ℚ := 1
  music_volume : ℚ := 7/20
  binaural_volume : ℚ := 1/4
  voice_offset_s : ℚ := 0
  music_offset_s : ℚ := 0
  binaural_offset_s : ℚ := 0
  sample_rate : ℕ := 8000
  ducking_enabled : Bool := true
  ducking_strength_music : ℚ := 13/20
  ducking_strength_binaural : ℚ := 7/20
  ducking_threshold : ℚ := 3/200
  ducking_release_s : ℚ := 2/25

/-- The recursion of `_envelope_iir`: `y = alpha*y + (1-alpha)*x[i]`,
starting from accumulator `y`.  The source computes
`alpha = exp(-1/(sr * max(0.001, tau_s)))`, a transcendental value in
`[0, 1)`; the embedding takes `alpha` as a parameter. -/
def envelopeIIRFrom (alpha : ℚ) (y : ℚ) : List ℚ → List ℚ
  | [] => []
  | x :: xs =>
      (alpha * y + (1 - alpha) * x) ::
        envelopeIIRFrom alpha (alpha * y + (1 - alpha) * x) xs

/-- `_envelope_iir` on an `|x|` signal, accumulator starting at `0.0`. -/
def envelopeIIR (alpha : ℚ) (absSig : List ℚ) : List ℚ :=
  envelopeIIRFrom alpha 0 absSig

/-- The duck mask of `mixdown_to_wav`:
`np.clip((env - thr) / max(1e-6, thr), 0.0, 1.0)`. -/
def duckMask (env : List ℚ) (thr : ℚ) : List ℚ :=
  env.map (fun e => clipTo 0 1 ((e - thr) / max (1/1000000) thr))

/-- The duck mask as the specification sentence words it:
`clip((envelope - threshold)/threshold, 0, 1)`, with no guard on the
divisor.  (Refinement reference only; the source divides by
`max(1e-6, threshold)`.) -/
def duckMaskSpec (env : List ℚ) (thr : ℚ) : List ℚ :=
  env.map (fun e => clipTo 0 1 ((e - thr) / thr))

/-- `bed[:k, :] *= (1 - strength * mask[:k])[:, None]` with
`k = min(len bed, len mask)`: scale each stereo bed frame by
`1 - strength * mask[i]` over the overlap with the mask, leave frames
beyond the mask unchanged. -/
def applyDuck (bed : List (ℚ × ℚ)) (mask : List ℚ) (strength : ℚ) :
    List (ℚ × ℚ) :=
  bed.mapIdx (fun i p =>
    match mask.get? i with
    | some mv => ((1 - strength * mv) * p.1, (1 - strength * mv) * p.2)
    | none => p)

/-- The sidechain-ducking block of `mixdown_to_wav` (lines 112–126): inputs
are the placed voice's left channel `v`, the placed stereo beds `m` and
`b`, and the settings; `alpha` is the envelope coefficient
`exp(-1/(sample_rate * max(0.001, ducking_release_s)))` (see
`envelopeIIRFrom`).  Returns the (possibly ducked) beds. -/
def duckSection (st : MixSettings) (alpha : ℚ) (v : List ℚ)
    (m b : List (ℚ × ℚ)) : List (ℚ × ℚ) × List (ℚ × ℚ) :=
  if st.ducking_enabled ∧ v.length > 0 ∧ (m.length > 0 ∨ b.length > 0) then
    let env := envelopeIIR alpha (v.map (fun x => |x|))
    let mask := duckMask env st.ducking_threshold
    (applyDuck m mask st.ducking_strength_music,
     applyDuck b mask st.ducking_strength_binaural)
  else (m, b)

/-- `duckSection` as the claim words it, with `duckMaskSpec`
(division by the raw threshold).  Refinement reference only. -/
def duckSectionSpec (st : MixSettings) (alpha : ℚ) (v : List ℚ)
    (m b : List (ℚ × ℚ)) : List (ℚ × ℚ) × List (ℚ × ℚ) :=
  if st.ducking_enabled ∧ v.length > 0 ∧ (m.length > 0 ∨ b.length > 0) then
    let env := envelopeIIR alpha (v.map (fun x => |x|))
    let mask := duckMaskSpec env st.ducking_threshold
    (applyDuck m mask st.ducking_strength_music,
     applyDuck b mask st.ducking_strength_binaural)
  else (m, b)

/-! ## `mixdown_to_wav`'s availability-wait loop (lines 72–86)

```
for _ in range(40):  # ~4s
    if voice.exists() and music.exists() and binaural.exists():
        try: read_wave_mono(voice); break
        except: time.sleep(0.1)
    else: time.sleep(0.1)
```
The poll outcome at each attempt is abstracted as a `StemPoll`; the loop
breaks when all three files exist *and the voice file decodes* (only the
voice file is test-decoded). -/

structure StemPoll where
  voiceExists : Bool
  musicExists : Bool
  binauralExists : Bool
  voiceDecodes : Bool
  musicDecodes : Bool
  binauralDecodes : Bool

/-- The loop's actual break condition: existence of all three stems and a
successful decode of the voice stem. -/
def stemsReady (p : StemPoll) : Bool :=
  p.voiceExists && p.musicExists && p.binauralExists && p.voiceDecodes

/-- The break condition as the claim words it: existence *and successful
decode* of all three stems.  Refinement reference only. -/
def stemsReadySpec (p : StemPoll) : Bool :=
  p.voiceExists && p.musicExists && p.binauralExists &&
    p.voiceDecodes && p.musicDecodes && p.binauralDecodes

/-- Number of 100 ms sleeps the bounded loop performs, polling `cond` at
attempts `i, i+1, …` with `fuel` attempts left: a non-ready attempt sleeps
once, a ready attempt breaks, exhausted fuel proceeds. -/
def waitSleepsFrom (cond : ℕ → Bool) : ℕ → ℕ → ℕ
  | 0, _ => 0
  | fuel + 1, i => if cond i then 0 else 1 + waitSleepsFrom cond fuel (i + 1)

/-- Sleeps performed by the availability wait of `mixdown_to_wav`
(40 attempts, 100 ms each). -/
def availabilityWaitSleeps (poll : ℕ → StemPoll) : ℕ :=
  waitSleepsFrom (fun i => stemsReady (poll i)) 40 0

/-- The wait loop under the claim's break condition (decode of all three).
Refinement reference only. -/
def availabilityWaitSleepsSpec (poll : ℕ → StemPoll) : ℕ :=
  waitSleepsFrom (fun i => stemsReadySpec (poll i)) 40 0

/-! ## `audio_stats.wav_stats`

`wav_stats(path, max_seconds)` is wrapped in a `try/except Exception`
returning a `WavStats` record in every case.  The filesystem view the
function depends on is abstracted as `Option (ℕ × Except String WavInfo)`:
`none` for a missing file, otherwise the file size together with the result
of `wave.open` + header reads (an `Except.error` models any exception the
`wave` module or numpy raises while reading, which the outer handler turns
into `error=str(e)`).

`peak_dbfs`/`rms_dbfs` in the source are `20*log10` of the linear peak and
RMS (with a `1e-12` floor inside the `sqrt` for the RMS); `log10` and
`sqrt` are transcendental/irrational, so the record below stores the linear
peak and the squared RMS, from which the source's fields are the monotone
images.  No verified claim mentions these two fields. -/

/-- Header and data of a readable WAV file, as the `wave` module reports
them: channel count, sample width (bytes), frame rate, frame count, and the
bytes of the data chunk that `readframes` serves. -/
structure WavInfo where
  nch : ℕ
  sw : ℕ
  sr : ℕ
  nframes : ℕ
  data : List ℕ

/-- The `WavStats` dataclass of `audio_stats.py` (`exists` is a Lean
keyword, rendered `fileExists`; see the section comment for
`peak_lin`/`rms_sq`). -/
structure WavStats where
  fileExists : Bool
  bytes : ℕ := 0
  sample_rate : Option ℕ := none
  channels : Option ℕ := none
  frames : Option ℕ := none
  duration_s : Option ℚ := none
  peak_lin : Option ℚ := none
  rms_sq : Option ℚ := none
  error : Option String := none
deriving DecidableEq

/-- `frames_to_read`: all frames, clamped to `int(max_seconds * sr)` when a
bound is given and the rate is positive. -/
def statsFramesToRead (wf : WavInfo) (maxSeconds : Option ℚ) : ℕ :=
  match maxSeconds with
  | some ms => if wf.sr > 0 then min wf.nframes (truncZ (ms * wf.sr)).toNat
               else wf.nframes
  | none => wf.nframes

/-- Net effect of the chunked `readframes` loop: the bytes of
`min(frames_to_read, frames available in the data chunk)` whole frames. -/
def statsReadBytes (wf : WavInfo) (maxSeconds : Option ℚ) : List ℕ :=
  let bytesPerFrame := wf.nch * wf.sw
  let framesAvail := if bytesPerFrame > 0 then wf.data.length / bytesPerFrame else 0
  wf.data.take (min (statsFramesToRead wf maxSeconds) framesAvail * bytesPerFrame)

/-- The samples the stats loop accumulates over: the decoded bytes, mixed
down across channels when `nch > 1` (the per-chunk decode and mean commute
with concatenation, so the loop's accumulation equals this single pass). -/
def statsDecode (wf : WavInfo) (maxSeconds : Option ℚ) :
    Except String (List ℚ) :=
  (decodePcm (statsReadBytes wf maxSeconds) wf.sw).map
    (fun xs => if wf.nch > 1 then (frames wf.nch xs).map listMean else xs)

/-- `wav_stats(path, max_seconds)` from `audio_stats.py`. -/
def wavStats (file : Option (ℕ × Except String WavInfo))
    (maxSeconds : Option ℚ) : WavStats :=
  match file with
  | none => { fileExists := false }
  | some (size, parse) =>
    if size ≤ 44 then
      { fileExists := true, bytes := size, error := some "File too small" }
    else
      match parse with
      | .error e => { fileExists := true, bytes := size, error := some e }
      | .ok wf =>
        let dur : Option ℚ :=
          if wf.sr > 0 then some ((wf.nframes : ℚ) / (wf.sr : ℚ)) else none
        if wf.sw = 1 ∨ wf.sw = 2 ∨ wf.sw = 3 ∨ wf.sw = 4 then
          match statsDecode wf maxSeconds with
          | .error e => { fileExists := true, bytes := size, error := some e }
          | .ok x =>
            if x.length = 0 then
              { fileExists := true, bytes := size, sample_rate := some wf.sr,
                channels := some wf.nch, frames := some wf.nframes,
                duration_s := dur, error := some "No frames decoded" }
            else
              { fileExists := true, bytes := size, sample_rate := some wf.sr,
                channels := some wf.nch, frames := some wf.nframes,
                duration_s := dur,
                peak_lin := some ((x.map (fun v => |v|)).foldl max 0),
                rms_sq := some (sumSq x / (x.length : ℚ) + 1/1000000000000),
                error := none }
        else
          { fileExists := true, bytes := size, sample_rate := some wf.sr,
            channels := some wf.nch, frames := some wf.nframes,
            duration_s := dur,
            error := some ("Unsupported sample width: " ++ toString wf.sw) }

/-! ## Helper lemmas -/

theorem clipTo_mem (lo hi x : ℚ) (h : lo ≤ hi) :
    lo ≤ clipTo lo hi x ∧ clipTo lo hi x ≤ hi := by
  unfold clipTo
  exact ⟨le_max_left _ _, max_le h (min_le_left _ _)⟩

theorem waitSleepsFrom_le (cond : ℕ → Bool) :
    ∀ fuel i, waitSleepsFrom cond fuel i ≤ fuel := by
  intro fuel
  induction fuel with
  | zero => intro i; simp [waitSleepsFrom]
  | succ f ih =>
      intro i
      simp only [waitSleepsFrom]
      cases hc : cond i
      · simp only [Bool.false_eq_true, if_false]
        have := ih (i + 1)
        omega
      · simp only [if_true]
        omega

theorem waitSleepsFrom_break (cond : ℕ → Bool) :
    ∀ fuel i, waitSleepsFrom cond fuel i = fuel ∨
      cond (i + waitSleepsFrom cond fuel i) = true := by
  intro fuel
  induction fuel with
  | zero => intro i; exact Or.inl rfl
  | succ f ih =>
      intro i
      simp only [waitSleepsFrom]
      cases hc : cond i
      · simp only [Bool.false_eq_true, if_false]
        rcases ih (i + 1) with h1 | h1
        · exact Or.inl (by omega)
        · exact Or.inr (by rw [show i + (1 + waitSleepsFrom cond f (i + 1))
            = i + 1 + waitSleepsFrom cond f (i + 1) by omega]; exact h1)
      · simp only [if_true]
        exact Or.inr (by simpa using hc)

theorem waitSleepsFrom_all_false (cond : ℕ → Bool) :
    ∀ fuel i, (∀ j, j < fuel → cond (i + j) = false) →
      waitSleepsFrom cond fuel i = fuel := by
  intro fuel
  induction fuel with
  | zero => intro i _; rfl
  | succ f ih =>
      intro i h
      have h0 : cond i = false := by simpa using h 0 (by omega)
      simp only [waitSleepsFrom, h0, Bool.false_eq_true, if_false]
      have := ih (i + 1) (fun j hj => by
        rw [show i + 1 + j = i + (j + 1) by omega]
        exact h (j + 1) (by omega))
      omega

theorem linspaceList_length (n : ℕ) : (linspaceList n).length = n := by
  simp [linspaceList]

theorem interpPoint_const (xp fp : List ℚ) (t c : ℚ) (hne : fp ≠ [])
    (hc : ∀ y ∈ fp, y = c) (hlen : xp.length = fp.length) :
    interpPoint xp fp t = c := by
  induction xp generalizing fp t with
  | nil =>
      have : fp = [] := List.eq_nil_of_length_eq_zero (by simpa using hlen.symm)
      exact absurd this hne
  | cons x0 xtl ih =>
      match fp, xtl with
      | [f0], [] =>
          simp only [interpPoint]
          exact hc f0 (by simp)
      | f0 :: f1 :: fs, x1 :: xs =>
          have hf0 : f0 = c := hc f0 (by simp)
          have hf1 : f1 = c := hc f1 (by simp)
          simp only [interpPoint]
          split
          · exact hf0
          · split
            · rw [hf0, hf1]
              ring
            · exact ih (f1 :: fs) t (by simp) (fun y hy => hc y (by simp [hy]))
                (by simpa using hlen)
      | f0 :: f1 :: fs, [] => simp at hlen
      | [f0], x1 :: xs => simp at hlen
      | [], _ => exact absurd rfl hne

/-! ## Claim theorems -/

/-- C10: the duck-mask computation divides by `max(1e-6, threshold)`; for
every `MixSettings` — including a zero or sub-`1e-6` `ducking_threshold` —
that divisor is strictly positive and every resulting mask value lies in
`[0, 1]`. -/
theorem duck_mask_division_guarded (st : MixSettings) (env : List ℚ) :
    0 < max (1/1000000 : ℚ) st.ducking_threshold ∧
      ∀ x ∈ duckMask env st.ducking_threshold, 0 ≤ x ∧ x ≤ 1 := by
  refine ⟨lt_max_of_lt_left (by norm_num), ?_⟩
  intro x hx
  simp only [duckMask, List.mem_map] at hx
  obtain ⟨e, -, rfl⟩ := hx
  exact clipTo_mem 0 1 _ (by norm_num)

theorem pyRound_natCast (n : ℕ) : pyRound (n : ℚ) = n := by
  unfold pyRound
  rw [Int.floor_natCast]
  norm_num

theorem mapIdx_get {α β : Type} (f : ℕ → α → β) (l : List α) (i : ℕ)
    (h : i < l.length) (h2 : i < (l.mapIdx f).length) :
    (l.mapIdx f).get ⟨i, h2⟩ = f i (l.get ⟨i, h⟩) :=
  List.get_mapIdx l f i h h2

theorem mapIdx_singleton {α β : Type} (f : ℕ → α → β) (a : α) :
    List.mapIdx f [a] = [f 0 a] := by
  simpa using List.mapIdx_append_one f [] a

/-- C6 (amended): the availability-wait loop performs at most 40 attempts
with 100 ms sleeps, it stops early only when the actual readiness condition
(existence of all three stems and a successful decode of the *voice* stem)
holds at the attempt it stopped at, and when no attempt is ready it runs
all 40 attempts and proceeds regardless. -/
theorem availability_wait_bounded (poll : ℕ → StemPoll) :
    availabilityWaitSleeps poll ≤ 40 ∧
    (availabilityWaitSleeps poll = 40 ∨
      stemsReady (poll (availabilityWaitSleeps poll)) = true) ∧
    ((∀ i, i < 40 → stemsReady (poll i) = false) →
      availabilityWaitSleeps poll = 40) := by
  refine ⟨waitSleepsFrom_le _ 40 0, ?_, ?_⟩
  · have h := waitSleepsFrom_break (fun i => stemsReady (poll i)) 40 0
    simpa [availabilityWaitSleeps] using h
  · intro h
    exact waitSleepsFrom_all_false _ 40 0 (fun j hj => by simpa using h j hj)

theorem availability_wait_bounded_witness :
    (∀ i, i < 40 →
      stemsReady ((fun _ : ℕ => StemPoll.mk false false false false false false) i)
        = false) ∧
    availabilityWaitSleeps (fun _ => StemPoll.mk false false false false false false)
      = 40 :=
  ⟨fun _ _ => rfl,
    (availability_wait_bounded
      (fun _ => StemPoll.mk false false false false false false)).2.2
      (fun _ _ => rfl)⟩

/-- C6 counterexample: a poll state in which all three stems exist and the
voice stem decodes, but the music and binaural stems never decode.  The
loop's break condition is already true (it only test-decodes the voice
file), so the loop exits immediately with 0 sleeps, whereas the claimed
condition — successful decode of all three — never holds and would poll
all 40 attempts. -/
theorem availability_wait_decode_counterexample :
    stemsReady (StemPoll.mk true true true true false false) = true ∧
    stemsReadySpec (StemPoll.mk true true true true false false) = false ∧
    availabilityWaitSleeps (fun _ => StemPoll.mk true true true true false false)
      = 0 ∧
    availabilityWaitSleepsSpec
      (fun _ => StemPoll.mk true true true true false false) = 40 :=
  ⟨rfl, rfl, rfl, by decide⟩

/-- C9: `fade(signal, 0, sr)` returns the signal unchanged; `fade` returns
the signal unchanged whenever twice the computed fade length exceeds the
signal length; otherwise (fade length a nonzero natural `n`) the first `n`
samples are multiplied by the linear ramp `i/(n-1)` and the last `n` by its
reverse, with the middle unchanged. -/
theorem fade_boundary_guard (s : List ℚ) (fadeTime : ℚ) (sr : ℕ) :
    fade s 0 sr = .ok s ∧
    (truncZ (fadeTime * sr) * 2 > (s.length : ℤ) → fade s fadeTime sr = .ok s) ∧
    (∀ n : ℕ, truncZ (fadeTime * sr) = (n : ℤ) → n ≠ 0 → n * 2 ≤ s.length →
      ∃ out : List ℚ, fade s fadeTime sr = .ok out ∧ out.length = s.length ∧
        (∀ i (hi : i < s.length) (ho : i < out.length), i < n →
          out.get ⟨i, ho⟩ = s.get ⟨i, hi⟩ * ((i : ℚ) / ((n : ℚ) - 1))) ∧
        (∀ i (hi : i < s.length) (ho : i < out.length), s.length - n ≤ i →
          out.get ⟨i, ho⟩
            = s.get ⟨i, hi⟩ * (((s.length - 1 - i : ℕ) : ℚ) / ((n : ℚ) - 1))) ∧
        (∀ i (hi : i < s.length) (ho : i < out.length), n ≤ i → i < s.length - n →
          out.get ⟨i, ho⟩ = s.get ⟨i, hi⟩)) := by
  refine ⟨by simp [fade, truncZ], ?_, ?_⟩
  · intro h
    simp only [fade]
    rw [if_pos (Or.inr h)]
  · intro n hn hzero hlen
    have hcond : ¬(truncZ (fadeTime * sr) = 0 ∨
        truncZ (fadeTime * sr) * 2 > (s.length : ℤ)) := by
      rw [hn]
      push_neg
      refine ⟨by exact_mod_cast hzero, by exact_mod_cast hlen⟩
    have hneg : ¬(truncZ (fadeTime * sr) < 0) := by
      rw [hn]
      exact not_lt.mpr (Int.natCast_nonneg n)
    have hval : fade s fadeTime sr = .ok (fadeApply s n) := by
      simp only [fade]
      rw [if_neg hcond, if_neg hneg, hn, Int.toNat_natCast]
    refine ⟨fadeApply s n, hval, by simp [fadeApply], ?_, ?_, ?_⟩
    · intro i hi ho hin
      simp only [fadeApply] at ho ⊢
      rw [mapIdx_get _ _ _ hi ho, if_pos hin]
      rfl
    · intro i hi ho htail
      have hni : ¬ i < n := by omega
      simp only [fadeApply] at ho ⊢
      rw [mapIdx_get _ _ _ hi ho, if_neg hni, if_pos htail]
      rfl
    · intro i hi ho h1 h2
      have hni : ¬ i < n := by omega
      have hnt : ¬ s.length - n ≤ i := by omega
      simp only [fadeApply] at ho ⊢
      rw [mapIdx_get _ _ _ hi ho, if_neg hni, if_neg hnt]

theorem fade_boundary_guard_witness :
    truncZ ((1/2 : ℚ) * ((2 : ℕ) : ℚ)) = ((1 : ℕ) : ℤ) ∧
    (1 : ℕ) ≠ 0 ∧ 1 * 2 ≤ ([(1 : ℚ), 1, 1, 1] : List ℚ).length ∧
    truncZ ((1 : ℚ) * ((1 : ℕ) : ℚ)) * 2 > (([(1 : ℚ)] : List ℚ).length : ℤ) ∧
    fade [(1 : ℚ)] 1 1 = .ok [(1 : ℚ)] ∧
    (∃ out : List ℚ, fade [(1 : ℚ), 1, 1, 1] (1/2) 2 = .ok out ∧
      out.length = ([(1 : ℚ), 1, 1, 1] : List ℚ).length ∧
      (∀ i (hi : i < ([(1 : ℚ), 1, 1, 1] : List ℚ).length) (ho : i < out.length),
        i < 1 → out.get ⟨i, ho⟩
          = ([(1 : ℚ), 1, 1, 1] : List ℚ).get ⟨i, hi⟩ * ((i : ℚ) / ((1 : ℚ) - 1))) ∧
      (∀ i (hi : i < ([(1 : ℚ), 1, 1, 1] : List ℚ).length) (ho : i < out.length),
        ([(1 : ℚ), 1, 1, 1] : List ℚ).length - 1 ≤ i → out.get ⟨i, ho⟩
          = ([(1 : ℚ), 1, 1, 1] : List ℚ).get ⟨i, hi⟩
            * (((([(1 : ℚ), 1, 1, 1] : List ℚ).length - 1 - i : ℕ) : ℚ) / ((1 : ℚ) - 1))) ∧
      (∀ i (hi : i < ([(1 : ℚ), 1, 1, 1] : List ℚ).length) (ho : i < out.length),
        1 ≤ i → i < ([(1 : ℚ), 1, 1, 1] : List ℚ).length - 1 →
        out.get ⟨i, ho⟩ = ([(1 : ℚ), 1, 1, 1] : List ℚ).get ⟨i, hi⟩)) := by
  have h1 : truncZ ((1/2 : ℚ) * ((2 : ℕ) : ℚ)) = ((1 : ℕ) : ℤ) := by
    norm_num [truncZ]
  have h2 : truncZ ((1 : ℚ) * ((1 : ℕ) : ℚ)) * 2 > (([(1 : ℚ)] : List ℚ).length : ℤ) := by
    have hx : ((1 : ℚ) * ((1 : ℕ) : ℚ)) = 1 := by norm_num
    simp only [truncZ, hx]
    norm_num
  exact ⟨h1, by decide, by decide, h2,
    (fade_boundary_guard [(1 : ℚ)] 1 1).2.1 h2,
    (fade_boundary_guard [(1 : ℚ), 1, 1, 1] (1/2) 2).2.2 1 h1 (by decide) (by decide)⟩

/-- C7 (amended): `resampleLinear(signal, sr, sr)` is the input signal
exactly; `resampleLinear` is the identity when the input has fewer than 2
samples (hence the claimed output length `round(len*srOut/srIn)` fails for
constant signals of length < 2); and for every constant signal with at
least 2 samples and positive input rate the output length is
`round(len*srOut/srIn)` (Python banker's rounding) and every output sample
equals the constant. -/
theorem resample_identity_and_constant (s : List ℚ) (sr srIn srOut : ℕ) (c : ℚ) :
    resampleLinear s sr sr = s ∧
    (s.length < 2 → resampleLinear s srIn srOut = s) ∧
    (0 < srIn → (∀ x ∈ s, x = c) → 2 ≤ s.length →
      (resampleLinear s srIn srOut).length
          = (pyRound ((s.length : ℚ) * ((srOut : ℚ) / (srIn : ℚ)))).toNat ∧
        ∀ y ∈ resampleLinear s srIn srOut, y = c) := by
  refine ⟨by simp [resampleLinear], ?_, ?_⟩
  · intro h
    by_cases heq : srIn = srOut
    · simp [resampleLinear, heq]
    · simp [resampleLinear, heq, h]
  · intro hsr hc hlen
    by_cases heq : srIn = srOut
    · subst heq
      have hres : resampleLinear s srIn srIn = s := by simp [resampleLinear]
      have hratio : ((srIn : ℚ) / (srIn : ℚ)) = 1 :=
        div_self (by exact_mod_cast hsr.ne')
      refine ⟨?_, ?_⟩
      · rw [hres, hratio, mul_one, pyRound_natCast, Int.toNat_natCast]
      · intro y hy
        rw [hres] at hy
        exact hc y hy
    · simp only [resampleLinear, if_neg heq, if_neg (not_lt.mpr hlen)]
      refine ⟨by rw [List.length_map, linspaceList_length], ?_⟩
      intro y hy
      simp only [List.mem_map] at hy
      obtain ⟨t, -, rfl⟩ := hy
      exact interpPoint_const _ _ _ _
        (List.length_pos.mp (by omega)) hc (by rw [linspaceList_length])

theorem resample_identity_and_constant_witness :
    (([(3 : ℚ), 3] : List ℚ).length < 2 → resampleLinear [(3 : ℚ), 3] 2 4 = [3, 3]) ∧
    (0 : ℕ) < 2 ∧ (∀ x ∈ ([(3 : ℚ), 3] : List ℚ), x = 3) ∧
    2 ≤ ([(3 : ℚ), 3] : List ℚ).length ∧
    ((resampleLinear [(3 : ℚ), 3] 2 4).length
        = (pyRound ((([(3 : ℚ), 3] : List ℚ).length : ℚ) * ((4 : ℚ) / (2 : ℚ)))).toNat ∧
      ∀ y ∈ resampleLinear [(3 : ℚ), 3] 2 4, y = 3) :=
  ⟨(resample_identity_and_constant [(3 : ℚ), 3] 0 2 4 3).2.1,
    by decide, by norm_num, by decide,
    (resample_identity_and_constant [(3 : ℚ), 3] 0 2 4 3).2.2
      (by decide) (by norm_num) (by decide)⟩

/-- C7 counterexample: the constant one-sample signal `[5]` resampled from
rate 1 to rate 2 is returned unchanged (length 1), while the claimed output
length `round(len * srOut/srIn) = round(1 * 2) = 2`. -/
theorem resample_constant_length_counterexample :
    resampleLinear [(5 : ℚ)] 1 2 = [(5 : ℚ)] ∧
    (resampleLinear [(5 : ℚ)] 1 2).length = 1 ∧
    (pyRound ((([(5 : ℚ)] : List ℚ).length : ℚ) * ((2 : ℚ) / (1 : ℚ)))).toNat = 2 ∧
    (1 : ℕ) ≠ 2 := by
  refine ⟨by norm_num [resampleLinear], by norm_num [resampleLinear], ?_, by decide⟩
  norm_num [pyRound]
  decide

theorem clip1_mem (x : ℚ) : -1 ≤ clip1 x ∧ clip1 x ≤ 1 := by
  unfold clip1
  exact ⟨le_max_left _ _, max_le (by norm_num) (min_le_left _ _)⟩

theorem clip1_of_mem (x : ℚ) (h1 : -1 ≤ x) (h2 : x ≤ 1) : clip1 x = x := by
  unfold clip1
  rw [min_eq_right h2, max_eq_right h1]

theorem truncZ_le (q : ℚ) (b : ℕ) (h : q ≤ (b : ℚ)) : truncZ q ≤ (b : ℤ) := by
  unfold truncZ
  split
  · calc ⌊q⌋ ≤ ⌊(b : ℚ)⌋ := Int.floor_le_floor h
      _ = b := Int.floor_natCast b
  · calc ⌈q⌉ ≤ ⌈(b : ℚ)⌉ := Int.ceil_le_ceil h
      _ = b := Int.ceil_natCast b

theorem truncZ_ge (q : ℚ) (b : ℕ) (h : -(b : ℚ) ≤ q) : -(b : ℤ) ≤ truncZ q := by
  unfold truncZ
  split
  · calc (-(b : ℤ)) ≤ 0 := by omega
      _ ≤ ⌊q⌋ := Int.floor_nonneg.mpr (by assumption)
  · have hc : (⌈(-(b : ℚ))⌉ : ℤ) = -(b : ℤ) := by
      rw [show (-(b : ℚ)) = (((-(b : ℤ)) : ℤ) : ℚ) by push_cast; ring]
      exact Int.ceil_intCast _
    calc (-(b : ℤ)) = ⌈(-(b : ℚ))⌉ := hc.symm
      _ ≤ ⌈q⌉ := Int.ceil_le_ceil h

theorem list_sum_le_length (l : List ℚ) (h : ∀ x ∈ l, x ≤ 1) :
    l.sum ≤ (l.length : ℚ) := by
  induction l with
  | nil => simp
  | cons a as ih =>
      simp only [List.sum_cons, List.length_cons]
      push_cast
      have ha := h a (by simp)
      have := ih (fun x hx => h x (by simp [hx]))
      linarith

theorem list_neg_length_le_sum (l : List ℚ) (h : ∀ x ∈ l, -1 ≤ x) :
    -(l.length : ℚ) ≤ l.sum := by
  induction l with
  | nil => simp
  | cons a as ih =>
      simp only [List.sum_cons, List.length_cons]
      push_cast
      have ha := h a (by simp)
      have := ih (fun x hx => h x (by simp [hx]))
      linarith

theorem listMean_mem (l : List ℚ) (h : ∀ x ∈ l, -1 ≤ x ∧ x ≤ 1) :
    -1 ≤ listMean l ∧ listMean l ≤ 1 := by
  unfold listMean
  cases l with
  | nil => norm_num
  | cons a as =>
      have hlen : (0 : ℚ) < ((a :: as).length : ℚ) := by
        have h0 : 0 < (a :: as).length := Nat.succ_pos _
        exact_mod_cast h0
      constructor
      · rw [le_div_iff₀ hlen]
        have := list_neg_length_le_sum (a :: as) (fun x hx => (h x hx).1)
        linarith
      · rw [div_le_one hlen]
        exact list_sum_le_length (a :: as) (fun x hx => (h x hx).2)

theorem frames_mem_aux (nch : ℕ) :
    ∀ (n : ℕ) (x : List ℚ), x.length = n → ∀ f ∈ frames nch x, ∀ y ∈ f, y ∈ x := by
  intro n
  induction n using Nat.strong_induction_on with
  | _ n ih =>
    intro x hl
    cases x with
    | nil => simp [frames]
    | cons a as =>
      cases nch with
      | zero => simp [frames]
      | succ m =>
        intro f hf y hy
        simp only [frames] at hf
        rcases List.mem_cons.mp hf with hh | hh
        · subst hh
          exact List.take_subset _ _ hy
        · have hlt : ((a :: as).drop (m + 1)).length < n := by
            subst hl
            simp only [List.length_drop, List.length_cons]
            omega
          exact List.drop_subset _ _
            (ih _ hlt ((a :: as).drop (m + 1)) rfl f hh y hy)

theorem frames_mem (nch : ℕ) (x : List ℚ) :
    ∀ f ∈ frames nch x, ∀ y ∈ f, y ∈ x :=
  frames_mem_aux nch x.length x rfl

theorem clipSig_mem (s : List ℚ) : ∀ x ∈ clipSig s, -1 ≤ x ∧ x ≤ 1 := by
  intro x hx
  simp only [clipSig, List.mem_map] at hx
  obtain ⟨y, -, rfl⟩ := hx
  exact clip1_mem y

/-- C8: every sample a successful `read_wave` or `read_wave_mono` returns
lies in the closed range `[-1, 1]` whatever the file's bytes, and
`save_wave` clips its input to `[-1, 1]` before the 16-bit conversion, so
the stored 16-bit value always lies in `[-32767, 32767]`. -/
theorem signal_range_invariant :
    (∀ (raw : List ℕ) (w : ℕ) (l : List ℚ), readWaveSamples raw w = .ok l →
      ∀ x ∈ l, -1 ≤ x ∧ x ≤ 1) ∧
    (∀ (raw : List ℕ) (w nch : ℕ) (l : List ℚ),
      readWaveMonoSamples raw w nch = .ok l → ∀ x ∈ l, -1 ≤ x ∧ x ≤ 1) ∧
    (∀ x : ℚ, encodeSample16 x = encodeSample16 (clip1 x) ∧
      -1 ≤ clip1 x ∧ clip1 x ≤ 1 ∧
      -32767 ≤ encodeSample16 x ∧ encodeSample16 x ≤ 32767) := by
  have hread : ∀ (raw : List ℕ) (w : ℕ) (l : List ℚ),
      readWaveSamples raw w = .ok l → ∀ x ∈ l, -1 ≤ x ∧ x ≤ 1 := by
    intro raw w l hl
    unfold readWaveSamples at hl
    cases hdec : decodePcm raw w with
    | error e => rw [hdec] at hl; exact absurd hl (by simp [Except.map])
    | ok l0 =>
        rw [hdec] at hl
        simp only [Except.map, Except.ok.injEq] at hl
        subst hl
        exact clipSig_mem l0
  refine ⟨hread, ?_, ?_⟩
  · intro raw w nch l hl
    unfold readWaveMonoSamples at hl
    cases hrd : readWaveSamples raw w with
    | error e => rw [hrd] at hl; exact absurd hl (by simp [Except.map])
    | ok l0 =>
        rw [hrd] at hl
        simp only [Except.map, Except.ok.injEq] at hl
        have hl0 := hread raw w l0 hrd
        subst hl
        split
        · intro x hx
          simp only [List.mem_map] at hx
          obtain ⟨f, hf, rfl⟩ := hx
          exact listMean_mem f (fun y hy => hl0 y (frames_mem nch l0 f hf y hy))
        · exact hl0
  · intro x
    have hm := clip1_mem x
    have hidem : clip1 (clip1 x) = clip1 x := clip1_of_mem _ hm.1 hm.2
    refine ⟨by rw [encodeSample16, encodeSample16, hidem], hm.1, hm.2, ?_, ?_⟩
    · have : -((32767 : ℕ) : ℚ) ≤ clip1 x * 32767 := by
        push_cast
        nlinarith [hm.1]
      simpa using truncZ_ge _ 32767 this
    · have : clip1 x * 32767 ≤ ((32767 : ℕ) : ℚ) := by
        push_cast
        nlinarith [hm.2]
      simpa using truncZ_le _ 32767 this

theorem signal_range_invariant_witness :
    readWaveSamples [128] 1 = .ok [(0 : ℚ)] ∧
    (∀ x ∈ ([(0 : ℚ)] : List ℚ), -1 ≤ x ∧ x ≤ 1) ∧
    readWaveMonoSamples [128, 128] 1 2 = .ok [(0 : ℚ)] ∧
    (∀ x ∈ ([(0 : ℚ)] : List ℚ), (-1 : ℚ) ≤ x ∧ x ≤ (1 : ℚ)) := by
  have h1 : readWaveSamples [128] 1 = .ok [(0 : ℚ)] := by
    norm_num [readWaveSamples, decodePcm, clipSig, clip1, Except.map]
  have h2 : readWaveMonoSamples [128, 128] 1 2 = .ok [(0 : ℚ)] := by
    norm_num [readWaveMonoSamples, readWaveSamples, decodePcm, clipSig, clip1,
      Except.map, frames, listMean]
  exact ⟨h1, signal_range_invariant.1 [128] 1 [0] h1, h2,
    signal_range_invariant.2.1 [128, 128] 1 2 [0] h2⟩

theorem map_eq_self_of (l : List ℚ) (f : ℚ → ℚ) (h : ∀ x ∈ l, f x = x) :
    l.map f = l := by
  induction l with
  | nil => rfl
  | cons a as ih =>
      simp only [List.map_cons]
      rw [h a (by simp), ih (fun x hx => h x (by simp [hx]))]

theorem sumSq_nonneg (s : List ℚ) : 0 ≤ sumSq s := by
  unfold sumSq
  apply List.sum_nonneg
  intro x hx
  simp only [List.mem_map] at hx
  obtain ⟨y, -, rfl⟩ := hx
  exact mul_self_nonneg y

theorem meanSq_nonneg (s : List ℚ) : 0 ≤ meanSq s := by
  unfold meanSq
  exact div_nonneg (sumSq_nonneg s) (Nat.cast_nonneg s.length)

theorem rmsSqReg_pos (s : List ℚ) : 0 < rmsSqReg s := by
  unfold rmsSqReg
  have := meanSq_nonneg s
  linarith

theorem sumSq_map_mul (s : List ℚ) (g : ℚ) :
    sumSq (s.map (fun x => x * g)) = sumSq s * g ^ 2 := by
  induction s with
  | nil => simp [sumSq]
  | cons a as ih =>
      simp only [List.map_cons, sumSq, List.sum_cons] at ih ⊢
      rw [ih]
      ring

theorem meanSq_map_mul (s : List ℚ) (g : ℚ) :
    meanSq (s.map (fun x => x * g)) = meanSq s * g ^ 2 := by
  unfold meanSq
  rw [sumSq_map_mul, List.length_map, mul_div_right_comm]

/-- C3 (amended): the regularised squared RMS `dot/size + 1e-9` is strictly
positive for every signal — the `rms == 0` branch is dead and `normalize`
never divides by zero; for a non-empty signal the mean square of the
returned signal equals `t^2 * meanSq/(meanSq + 1e-9)` (so the returned RMS
equals the target `t = 10^(targetDb/20)` only in the limit
`meanSq >> 1e-9`, not exactly); and an all-zero signal is returned with its
values unchanged. -/
theorem normalize_postcondition (s : List ℚ) (t g : ℚ)
    (hg : g ^ 2 = normGainSq s t) :
    0 < rmsSqReg s ∧
    (s ≠ [] → meanSq (normalizeWith s g)
        = t ^ 2 * (meanSq s / rmsSqReg s) ∧
      meanSq (normalizeWith s g) = normalizeMeanSq s t) ∧
    ((∀ x ∈ s, x = 0) → normalizeWith s g = s) := by
  refine ⟨rmsSqReg_pos s, ?_, ?_⟩
  · intro hne
    have hlen : s.length ≠ 0 := by
      simpa using (List.length_pos.mpr hne).ne'
    have hmap : normalizeWith s g = s.map (fun x => x * g) := by
      unfold normalizeWith
      rw [if_neg hlen]
    have hms : meanSq (normalizeWith s g) = meanSq s * (t ^ 2 / rmsSqReg s) := by
      rw [hmap, meanSq_map_mul, hg, normGainSq]
    refine ⟨by rw [hms]; ring, ?_⟩
    rw [hms]
    unfold normalizeMeanSq
    rw [if_neg hlen, if_neg (rmsSqReg_pos s).ne']
    rw [normGainSq]
  · intro hz
    unfold normalizeWith
    split
    · rfl
    · exact map_eq_self_of s _ (fun x hx => by rw [hz x hx]; ring)

theorem normalize_postcondition_witness :
    ((1 : ℚ) ^ 2 = normGainSq [3/200000] (7/200000)) ∧
    ([(3/200000 : ℚ)] ≠ ([] : List ℚ)) ∧
    (meanSq (normalizeWith [(3/200000 : ℚ)] 1)
        = (7/200000 : ℚ) ^ 2
          * (meanSq [(3/200000 : ℚ)] / rmsSqReg [(3/200000 : ℚ)]) ∧
      meanSq (normalizeWith [(3/200000 : ℚ)] 1)
        = normalizeMeanSq [(3/200000 : ℚ)] (7/200000)) ∧
    ((0 : ℚ) ^ 2 = normGainSq [0] 0) ∧
    (∀ x ∈ ([(0 : ℚ)] : List ℚ), x = 0) ∧
    normalizeWith [(0 : ℚ)] 0 = [0] := by
  have hg1 : (1 : ℚ) ^ 2 = normGainSq [3/200000] (7/200000) := by
    norm_num [normGainSq, rmsSqReg, meanSq, sumSq]
  have hg2 : (0 : ℚ) ^ 2 = normGainSq [0] 0 := by
    norm_num [normGainSq, rmsSqReg, meanSq, sumSq]
  have hne : [(3/200000 : ℚ)] ≠ ([] : List ℚ) := by simp
  have hz : ∀ x ∈ ([(0 : ℚ)] : List ℚ), x = 0 := by simp
  exact ⟨hg1, hne,
    (normalize_postcondition [3/200000] (7/200000) 1 hg1).2.1 hne,
    hg2, hz, (normalize_postcondition [0] 0 0 hg2).2.2 hz⟩

/-- C3 counterexample: for the quiet non-zero signal `[1e-5]` and target
linear gain `t = 1` (`targetDb = 0`, so the claimed resulting RMS is `1`),
the mean square of the signal `normalize` returns is `1/11`, i.e. the RMS
is `1/sqrt(11) ≈ 0.30` — nowhere near the claimed `1` under any floating
tolerance.  The `1e-9` regulariser inside `rms = sqrt(ms + 1e-9)` dominates
the tiny mean square `1e-10`. -/
theorem normalize_rms_counterexample :
    normalizeMeanSq [1/100000] 1 = 1/11 ∧ (1 : ℚ) ^ 2 = 1 ∧ (1/11 : ℚ) ≠ 1 := by
  refine ⟨?_, by norm_num, by norm_num⟩
  norm_num [normalizeMeanSq, rmsSqReg, meanSq, sumSq, normGainSq]

theorem lor_mul_two_pow (a b k : ℕ) (h : a < 2 ^ k) :
    a ||| b * 2 ^ k = b * 2 ^ k + a := by
  apply Nat.eq_of_testBit_eq
  intro j
  have hb0 : (b * 2 ^ k).testBit j
      = if j < k then false else b.testBit (j - k) := by
    rw [mul_comm]
    have h0 : (0 : ℕ) < 2 ^ k := Nat.two_pow_pos k
    have hx := Nat.testBit_mul_pow_two_add b h0 j
    simpa using hx
  have hsum : (b * 2 ^ k + a).testBit j
      = if j < k then a.testBit j else b.testBit (j - k) := by
    rw [mul_comm]
    exact Nat.testBit_mul_pow_two_add b h j
  rw [Nat.testBit_lor, hb0, hsum]
  by_cases hj : j < k
  · simp [hj]
  · have hfa : a.testBit j = false := Nat.testBit_lt_two_pow
      (lt_of_lt_of_le h (Nat.pow_le_pow_right (by norm_num) (by omega)))
    simp [hj, hfa]

theorem bytes3_lor_eq (b0 b1 b2 : ℕ) (h0 : b0 < 256) (h1 : b1 < 256) :
    (b0 ||| b1 <<< 8 ||| b2 <<< 16) = b0 + 256 * b1 + 65536 * b2 := by
  rw [Nat.lor_assoc, Nat.shiftLeft_eq, Nat.shiftLeft_eq]
  have hlt : b1 * 2 ^ 8 < 2 ^ 16 := by norm_num; omega
  rw [lor_mul_two_pow (b1 * 2 ^ 8) b2 16 hlt]
  have e2 : b2 * 2 ^ 16 + b1 * 2 ^ 8 = (b2 * 2 ^ 8 + b1) * 2 ^ 8 := by ring
  have hlt0 : b0 < 2 ^ 8 := by norm_num; omega
  rw [e2, lor_mul_two_pow b0 (b2 * 2 ^ 8 + b1) 8 hlt0]
  ring_nf

theorem signExtend24_eq_toSigned (v : ℕ) (hv : v < 16777216) :
    signExtend24 v = toSigned v 24 := by
  unfold signExtend24 toSigned
  have hand : v &&& 0x800000 = (v.testBit 23).toNat * 2 ^ 23 :=
    Nat.and_two_pow v 23
  have htb : v.testBit 23 = decide (v / 2 ^ 23 % 2 = 1) :=
    Nat.testBit_to_div_mod
  have h23 : (2 : ℕ) ^ 23 = 8388608 := by norm_num
  have hiff : (v &&& 0x800000 ≠ 0) ↔ 2 ^ (24 - 1) ≤ v := by
    rw [hand]
    cases hb : v.testBit 23 with
    | false =>
        have hx : ¬ (v / 2 ^ 23 % 2 = 1) := by
          rw [htb] at hb
          simpa using hb
        rw [h23] at hx
        simp only [hb, Bool.toNat_false, zero_mul]
        norm_num
        omega
    | true =>
        have hx : v / 2 ^ 23 % 2 = 1 := by
          rw [htb] at hb
          simpa using hb
        rw [h23] at hx
        simp only [hb, Bool.toNat_true, one_mul, h23]
        norm_num
        omega
  by_cases hc : v &&& 0x800000 ≠ 0
  · rw [if_pos hc, if_pos (hiff.mp hc)]
    norm_num
  · rw [if_neg hc, if_neg (fun hx => hc (hiff.mpr hx))]

theorem groups2_spec : ∀ (n : ℕ) (raw : List ℕ), raw.length = n → 2 ∣ n →
    ∃ g, groups2 raw = some g ∧ g.length = raw.length / 2 ∧
      ∀ i, g.get? i = (raw.get? (2 * i)).bind
        (fun b0 => (raw.get? (2 * i + 1)).map (fun b1 => b0 + 256 * b1)) := by
  intro n
  induction n using Nat.strong_induction_on with
  | _ n ih =>
    intro raw hl hdvd
    rcases raw with - | ⟨b0, - | ⟨b1, rest⟩⟩
    · exact ⟨[], rfl, by simp, fun i => by simp⟩
    · exfalso
      simp at hl
      omega
    · have hln : rest.length + 2 = n := by simpa using hl
      obtain ⟨g, hg, hglen, hgidx⟩ :=
        ih (n - 2) (by omega) rest (by omega) (by omega)
      refine ⟨(b0 + 256 * b1) :: g, by simp [groups2, hg], ?_, ?_⟩
      · simp only [List.length_cons, hglen]
        omega
      · intro i
        cases i with
        | zero => simp
        | succ j =>
            have h3 : 2 * (j + 1) + 1 = 2 * j + 1 + 1 + 1 := by ring
            have h2 : 2 * (j + 1) = 2 * j + 1 + 1 := by ring
            rw [h3, h2]
            simp only [List.get?_cons_succ]
            exact hgidx j

theorem groups3_spec : ∀ (n : ℕ) (raw : List ℕ), raw.length = n →
    (∀ b ∈ raw, b < 256) → 3 ∣ n →
    ∃ g, groups3 raw = some g ∧ g.length = raw.length / 3 ∧
      ∀ i, g.get? i = (raw.get? (3 * i)).bind
        (fun b0 => (raw.get? (3 * i + 1)).bind
          (fun b1 => (raw.get? (3 * i + 2)).map
            (fun b2 => b0 + 256 * b1 + 65536 * b2))) := by
  intro n
  induction n using Nat.strong_induction_on with
  | _ n ih =>
    intro raw hl hbytes hdvd
    rcases raw with - | ⟨b0, - | ⟨b1, - | ⟨b2, rest⟩⟩⟩
    · exact ⟨[], rfl, by simp, fun i => by simp⟩
    · exfalso; simp at hl; omega
    · exfalso; simp at hl; omega
    · have hln : rest.length + 3 = n := by simpa using hl
      obtain ⟨g, hg, hglen, hgidx⟩ :=
        ih (n - 3) (by omega) rest (by omega)
          (fun b hb => hbytes b (by simp [hb])) (by omega)
      have hv : b0 ||| b1 <<< 8 ||| b2 <<< 16 = b0 + 256 * b1 + 65536 * b2 :=
        bytes3_lor_eq b0 b1 b2 (hbytes b0 (by simp)) (hbytes b1 (by simp))
      refine ⟨(b0 + 256 * b1 + 65536 * b2) :: g, by simp [groups3, hg, hv], ?_, ?_⟩
      · simp only [List.length_cons, hglen]
        omega
      · intro i
        cases i with
        | zero => simp
        | succ j =>
            have h4 : 3 * (j + 1) + 2 = 3 * j + 1 + 1 + 1 + 1 + 1 := by ring
            have h3 : 3 * (j + 1) + 1 = 3 * j + 1 + 1 + 1 + 1 := by ring
            have h2 : 3 * (j + 1) = 3 * j + 1 + 1 + 1 := by ring
            rw [h4, h3, h2]
            simp only [List.get?_cons_succ]
            have hx := hgidx j
            rw [show 3 * j + 2 = 3 * j + 1 + 1 by ring] at hx
            exact hx

theorem groups4_spec : ∀ (n : ℕ) (raw : List ℕ), raw.length = n → 4 ∣ n →
    ∃ g, groups4 raw = some g ∧ g.length = raw.length / 4 ∧
      ∀ i, g.get? i = (raw.get? (4 * i)).bind
        (fun b0 => (raw.get? (4 * i + 1)).bind
          (fun b1 => (raw.get? (4 * i + 2)).bind
            (fun b2 => (raw.get? (4 * i + 3)).map
              (fun b3 => b0 + 256 * b1 + 65536 * b2 + 16777216 * b3)))) := by
  intro n
  induction n using Nat.strong_induction_on with
  | _ n ih =>
    intro raw hl hdvd
    rcases raw with - | ⟨b0, - | ⟨b1, - | ⟨b2, - | ⟨b3, rest⟩⟩⟩⟩
    · exact ⟨[], rfl, by simp, fun i => by simp⟩
    · exfalso; simp at hl; omega
    · exfalso; simp at hl; omega
    · exfalso; simp at hl; omega
    · have hln : rest.length + 4 = n := by simpa using hl
      obtain ⟨g, hg, hglen, hgidx⟩ :=
        ih (n - 4) (by omega) rest (by omega) (by omega)
      refine ⟨(b0 + 256 * b1 + 65536 * b2 + 16777216 * b3) :: g,
        by simp [groups4, hg], ?_, ?_⟩
      · simp only [List.length_cons, hglen]
        omega
      · intro i
        cases i with
        | zero => simp
        | succ j =>
            have h5 : 4 * (j + 1) + 3 = 4 * j + 1 + 1 + 1 + 1 + 1 + 1 + 1 := by ring
            have h4 : 4 * (j + 1) + 2 = 4 * j + 1 + 1 + 1 + 1 + 1 + 1 := by ring
            have h3 : 4 * (j + 1) + 1 = 4 * j + 1 + 1 + 1 + 1 + 1 := by ring
            have h2 : 4 * (j + 1) = 4 * j + 1 + 1 + 1 + 1 := by ring
            rw [h5, h4, h3, h2]
            simp only [List.get?_cons_succ]
            have hx := hgidx j
            rw [show 4 * j + 3 = 4 * j + 1 + 1 + 1 by ring,
              show 4 * j + 2 = 4 * j + 1 + 1 by ring] at hx
            exact hx

/-- C4: `_decode_pcm` maps width-1 bytes via `(x-128)/128`; width-2
little-endian pairs, read as two's-complement 16-bit values, via `/32768`;
width-3 little-endian triples, sign-extended from bit 23, via `/8388608`;
width-4 little-endian quadruples, read as two's-complement 32-bit values,
via `/2147483648`; and any other width fails with the
`Unsupported WAV sample width` error rather than truncating or coercing. -/
theorem decode_pcm_mapping :
    (∀ raw : List ℕ, decodePcm raw 1
        = .ok (raw.map (fun x => ((x : ℚ) - 128) / 128))) ∧
    (∀ raw : List ℕ, (∀ b ∈ raw, b < 256) → 2 ∣ raw.length →
      ∃ l, decodePcm raw 2 = .ok l ∧ l.length = raw.length / 2 ∧
        ∀ i, l.get? i = (raw.get? (2 * i)).bind
          (fun b0 => (raw.get? (2 * i + 1)).map
            (fun b1 => (toSigned (b0 + 256 * b1) 16 : ℚ) / 32768))) ∧
    (∀ raw : List ℕ, (∀ b ∈ raw, b < 256) → 3 ∣ raw.length →
      ∃ l, decodePcm raw 3 = .ok l ∧ l.length = raw.length / 3 ∧
        ∀ i, l.get? i = (raw.get? (3 * i)).bind
          (fun b0 => (raw.get? (3 * i + 1)).bind
            (fun b1 => (raw.get? (3 * i + 2)).map
              (fun b2 => (toSigned (b0 + 256 * b1 + 65536 * b2) 24 : ℚ)
                / 8388608)))) ∧
    (∀ raw : List ℕ, (∀ b ∈ raw, b < 256) → 4 ∣ raw.length →
      ∃ l, decodePcm raw 4 = .ok l ∧ l.length = raw.length / 4 ∧
        ∀ i, l.get? i = (raw.get? (4 * i)).bind
          (fun b0 => (raw.get? (4 * i + 1)).bind
            (fun b1 => (raw.get? (4 * i + 2)).bind
              (fun b2 => (raw.get? (4 * i + 3)).map
                (fun b3 =>
                  (toSigned (b0 + 256 * b1 + 65536 * b2 + 16777216 * b3) 32 : ℚ)
                    / 2147483648))))) ∧
    (∀ (raw : List ℕ) (w : ℕ), w ≠ 1 → w ≠ 2 → w ≠ 3 → w ≠ 4 →
      decodePcm raw w = .error ("Unsupported WAV sample width: " ++ toString w)) := by
  refine ⟨fun raw => by simp [decodePcm], ?_, ?_, ?_, ?_⟩
  · intro raw hb hdvd
    obtain ⟨g, hg, hlen, hidx⟩ := groups2_spec raw.length raw rfl hdvd
    refine ⟨g.map (fun v => (toSigned v 16 : ℚ) / 32768),
      by simp [decodePcm, hg], by simp [hlen], ?_⟩
    intro i
    rw [List.get?_map, hidx i]
    cases hb0 : raw.get? (2 * i) with
    | none => simp
    | some b0 =>
        cases hb1 : raw.get? (2 * i + 1) with
        | none => simp
        | some b1 => simp
  · intro raw hb hdvd
    obtain ⟨g, hg, hlen, hidx⟩ := groups3_spec raw.length raw rfl hb hdvd
    refine ⟨g.map (fun v => (signExtend24 v : ℚ) / 8388608),
      by simp [decodePcm, hg], by simp [hlen], ?_⟩
    intro i
    rw [List.get?_map, hidx i]
    cases hb0 : raw.get? (3 * i) with
    | none => simp
    | some b0 =>
        cases hb1 : raw.get? (3 * i + 1) with
        | none => simp
        | some b1 =>
            cases hb2 : raw.get? (3 * i + 2) with
            | none => simp
            | some b2 =>
                have hv : b0 + 256 * b1 + 65536 * b2 < 16777216 := by
                  have e0 := hb b0 (List.get?_mem hb0)
                  have e1 := hb b1 (List.get?_mem hb1)
                  have e2 := hb b2 (List.get?_mem hb2)
                  omega
                simp [signExtend24_eq_toSigned _ hv]
  · intro raw hb hdvd
    obtain ⟨g, hg, hlen, hidx⟩ := groups4_spec raw.length raw rfl hdvd
    refine ⟨g.map (fun v => (toSigned v 32 : ℚ) / 2147483648),
      by simp [decodePcm, hg], by simp [hlen], ?_⟩
    intro i
    rw [List.get?_map, hidx i]
    cases hb0 : raw.get? (4 * i) with
    | none => simp
    | some b0 =>
        cases hb1 : raw.get? (4 * i + 1) with
        | none => simp
        | some b1 =>
            cases hb2 : raw.get? (4 * i + 2) with
            | none => simp
            | some b2 =>
                cases hb3 : raw.get? (4 * i + 3) with
                | none => simp
                | some b3 => simp
  · intro raw w h1 h2 h3 h4
    simp [decodePcm, h1, h2, h3, h4]

theorem decode_pcm_mapping_witness :
    (∀ b ∈ ([52, 18] : List ℕ), b < 256) ∧ (2 ∣ ([52, 18] : List ℕ).length) ∧
    (∀ b ∈ ([0, 0, 128] : List ℕ), b < 256) ∧
    (3 ∣ ([0, 0, 128] : List ℕ).length) ∧
    (∀ b ∈ ([0, 0, 0, 128] : List ℕ), b < 256) ∧
    (4 ∣ ([0, 0, 0, 128] : List ℕ).length) ∧
    decodePcm [160] 1 = .ok ([160].map (fun x => ((x : ℚ) - 128) / 128)) ∧
    (∃ l, decodePcm [52, 18] 2 = .ok l ∧ l.length = 1) ∧
    (∃ l, decodePcm [0, 0, 128] 3 = .ok l ∧ l.length = 1) ∧
    (∃ l, decodePcm [0, 0, 0, 128] 4 = .ok l ∧ l.length = 1) ∧
    decodePcm [] 7 = .error ("Unsupported WAV sample width: " ++ toString 7) := by
  refine ⟨by decide, by decide, by decide, by decide, by decide, by decide,
    decode_pcm_mapping.1 [160], ?_, ?_, ?_,
    decode_pcm_mapping.2.2.2.2 [] 7 (by decide) (by decide) (by decide)
      (by decide)⟩
  · obtain ⟨l, hl, hlen, -⟩ :=
      decode_pcm_mapping.2.1 [52, 18] (by decide) (by decide)
    exact ⟨l, hl, by simpa using hlen⟩
  · obtain ⟨l, hl, hlen, -⟩ :=
      decode_pcm_mapping.2.2.1 [0, 0, 128] (by decide) (by decide)
    exact ⟨l, hl, by simpa using hlen⟩
  · obtain ⟨l, hl, hlen, -⟩ :=
      decode_pcm_mapping.2.2.2.1 [0, 0, 0, 128] (by decide) (by decide)
    exact ⟨l, hl, by simpa using hlen⟩

theorem encodeSample16_bounds (x : ℚ) :
    -32767 ≤ encodeSample16 x ∧ encodeSample16 x ≤ 32767 := by
  have hm := clip1_mem x
  constructor
  · have h : -((32767 : ℕ) : ℚ) ≤ clip1 x * 32767 := by
      push_cast
      nlinarith [hm.1]
    simpa using truncZ_ge _ 32767 h
  · have h : clip1 x * 32767 ≤ ((32767 : ℕ) : ℚ) := by
      push_cast
      nlinarith [hm.2]
    simpa using truncZ_le _ 32767 h

theorem toSigned16_emod (v : ℤ) (h1 : -32768 ≤ v) (h2 : v ≤ 32767) :
    toSigned ((v % 65536).toNat) 16 = v := by
  unfold toSigned
  split <;> omega

theorem groups2_saveWave (s : List ℚ) :
    groups2 (saveWaveBytes s)
      = some (s.map (fun x => (encodeSample16 x % 65536).toNat)) := by
  induction s with
  | nil => rfl
  | cons a as ih =>
      have hsv : saveWaveBytes (a :: as)
          = ((encodeSample16 a % 65536).toNat % 256)
            :: ((encodeSample16 a % 65536).toNat / 256) :: saveWaveBytes as := by
        simp [saveWaveBytes, int16ToBytes]
      rw [hsv]
      simp only [groups2, ih, Option.map, List.map_cons]
      congr 2
      omega

theorem roundtrip_sample_bound (x : ℚ) (h1 : -1 ≤ x) (h2 : x ≤ 1) :
    |x - (encodeSample16 x : ℚ) / 32768| ≤ 2 / 32768 := by
  rw [encodeSample16, clip1_of_mem x h1 h2, abs_le]
  unfold truncZ
  split
  · have hf1 : ((⌊x * 32767⌋ : ℤ) : ℚ) ≤ x * 32767 := Int.floor_le _
    have hf2 : x * 32767 - 1 < ((⌊x * 32767⌋ : ℤ) : ℚ) := Int.sub_one_lt_floor _
    constructor <;> linarith
  · have hc1 : x * 32767 ≤ ((⌈x * 32767⌉ : ℤ) : ℚ) := Int.le_ceil _
    have hc2 : ((⌈x * 32767⌉ : ℤ) : ℚ) < x * 32767 + 1 := Int.ceil_lt_add_one _
    constructor <;> linarith

/-- C1 (amended): for a signal with all samples in `[-1, 1]`, writing with
`save_wave` (truncating cast `int16(x * 32767)`, two's-complement bytes)
and decoding the written sample data with the 16-bit branch of
`_decode_pcm` (`value / 32768`) succeeds, preserves the (flat, interleaved)
sample count — hence the frame count and the channel count recorded in the
header — and reproduces every sample within `2/32768 = 1/16384`.  The
claimed bound `1/32767` is exceeded (see the counterexample): the code
truncates instead of rounding and decodes by `/32768`, not `/32767`. -/
theorem save_roundtrip_16bit (s : List ℚ) (hs : ∀ x ∈ s, -1 ≤ x ∧ x ≤ 1) :
    ∃ l, decodePcm (saveWaveBytes s) 2 = .ok l ∧ l.length = s.length ∧
      ∀ i (hi : i < s.length) (hl : i < l.length),
        |s.get ⟨i, hi⟩ - l.get ⟨i, hl⟩| ≤ 2 / 32768 := by
  have hg := groups2_saveWave s
  refine ⟨(s.map (fun x => (encodeSample16 x % 65536).toNat)).map
      (fun v => (toSigned v 16 : ℚ) / 32768),
    by simp [decodePcm, hg], by simp, ?_⟩
  intro i hi hl
  simp only [List.get_eq_getElem, List.getElem_map]
  have hmem : s[i] ∈ s := List.getElem_mem hi
  have hx := hs _ hmem
  have hb := encodeSample16_bounds s[i]
  rw [toSigned16_emod _ (by omega) (by omega)]
  exact roundtrip_sample_bound _ hx.1 hx.2

theorem save_roundtrip_16bit_witness :
    (∀ x ∈ ([(1 : ℚ)/2] : List ℚ), -1 ≤ x ∧ x ≤ 1) ∧
    ∃ l, decodePcm (saveWaveBytes [(1 : ℚ)/2]) 2 = .ok l ∧
      l.length = ([(1 : ℚ)/2] : List ℚ).length ∧
      ∀ i (hi : i < ([(1 : ℚ)/2] : List ℚ).length) (hl : i < l.length),
        |([(1 : ℚ)/2] : List ℚ).get ⟨i, hi⟩ - l.get ⟨i, hl⟩| ≤ 2 / 32768 :=
  ⟨by norm_num, save_roundtrip_16bit [(1 : ℚ)/2] (by norm_num)⟩

/-- C1 counterexample: at `x = 65531/65534 = 32765.5/32767 ∈ [-1, 1]` the
write/decode round trip yields `32765/32768` (truncation of `32765.5`, then
division by `32768`), and the error `49149/(32767 * 32768) ≈ 4.58e-5`
exceeds the claimed `1/32767 ≈ 3.05e-5` even with a generous `ε = 1e-5`. -/
theorem save_roundtrip_claimed_bound_counterexample :
    decodePcm (saveWaveBytes [(65531 : ℚ)/65534]) 2 = .ok [(32765 : ℚ)/32768] ∧
    |(65531 : ℚ)/65534 - 32765/32768| > 1/32767 + 1/100000 := by
  have henc : encodeSample16 ((65531 : ℚ)/65534) = 32765 := by
    rw [encodeSample16, clip1_of_mem _ (by norm_num) (by norm_num)]
    rw [show ((65531 : ℚ)/65534) * 32767 = 65531/2 by norm_num]
    rw [truncZ, if_pos (by norm_num)]
    exact Int.floor_eq_iff.mpr ⟨by norm_num, by norm_num⟩
  have hbytes : saveWaveBytes [(65531 : ℚ)/65534] = [253, 127] := by
    simp only [saveWaveBytes, List.map_cons, List.map_nil, henc]
    decide
  constructor
  · rw [hbytes]
    norm_num [decodePcm, groups2, toSigned]
  · rw [abs_of_pos] <;> norm_num

theorem envelopeIIRFrom_length (al : ℚ) : ∀ (y : ℚ) (xs : List ℚ),
    (envelopeIIRFrom al y xs).length = xs.length := by
  intro y xs
  induction xs generalizing y with
  | nil => rfl
  | cons x xs ih => simp [envelopeIIRFrom, ih]

theorem envelopeIIRFrom_get_zero (al y : ℚ) (xs : List ℚ) :
    (envelopeIIRFrom al y xs).get? 0
      = (xs.get? 0).map (fun x => al * y + (1 - al) * x) := by
  cases xs <;> simp [envelopeIIRFrom]

theorem envelopeIIRFrom_get_succ (al : ℚ) : ∀ (y : ℚ) (xs : List ℚ) (i : ℕ),
    (envelopeIIRFrom al y xs).get? (i + 1)
      = ((envelopeIIRFrom al y xs).get? i).bind
          (fun p => (xs.get? (i + 1)).map (fun x => al * p + (1 - al) * x)) := by
  intro y xs
  induction xs generalizing y with
  | nil => intro i; simp [envelopeIIRFrom]
  | cons x xs ih =>
      intro i
      cases i with
      | zero =>
          simp only [envelopeIIRFrom, List.get?_cons_succ, List.get?_cons_zero]
          rw [envelopeIIRFrom_get_zero]
          rfl
      | succ j =>
          simp only [envelopeIIRFrom, List.get?_cons_succ]
          exact ih _ j

theorem duckMask_length (env : List ℚ) (thr : ℚ) :
    (duckMask env thr).length = env.length := by
  simp [duckMask]

theorem duckMask_get (env : List ℚ) (thr : ℚ) (i : ℕ) :
    (duckMask env thr).get? i = (env.get? i).map
      (fun e => clipTo 0 1 ((e - thr) / max (1/1000000) thr)) := by
  simp [duckMask]

theorem applyDuck_length (bed : List (ℚ × ℚ)) (mask : List ℚ) (str : ℚ) :
    (applyDuck bed mask str).length = bed.length := by
  simp [applyDuck]

theorem applyDuck_get_overlap (bed : List (ℚ × ℚ)) (mask : List ℚ) (str : ℚ)
    (i : ℕ) (hb : i < bed.length) (ha : i < (applyDuck bed mask str).length)
    (mv : ℚ) (hmv : mask.get? i = some mv) :
    (applyDuck bed mask str).get ⟨i, ha⟩
      = ((1 - str * mv) * (bed.get ⟨i, hb⟩).1,
         (1 - str * mv) * (bed.get ⟨i, hb⟩).2) := by
  unfold applyDuck at ha ⊢
  rw [mapIdx_get _ _ _ hb ha, hmv]

theorem applyDuck_get_beyond (bed : List (ℚ × ℚ)) (mask : List ℚ) (str : ℚ)
    (i : ℕ) (hb : i < bed.length) (ha : i < (applyDuck bed mask str).length)
    (hge : mask.length ≤ i) :
    (applyDuck bed mask str).get ⟨i, ha⟩ = bed.get ⟨i, hb⟩ := by
  unfold applyDuck at ha ⊢
  rw [mapIdx_get _ _ _ hb ha, List.get?_eq_none.mpr hge]

/-- C2 (amended): in `mixdown_to_wav`, ducking is applied iff ducking is
enabled, the placed voice is non-empty and at least one placed bed is
non-empty; the envelope is the one-pole low-pass of the absolute value of
the placed voice's left channel (`y ← α·y + (1-α)·|v i|` from `y = 0`, with
`α = exp(-1/(sample_rate * max(0.001, ducking_release_s)))`); the duck mask
is `clip((env - thr) / max(1e-6, thr), 0, 1)` — the divisor is the
*guarded* threshold, not the raw threshold the claim states; and each bed
frame within the mask length is scaled by `1 - strength * mask i` in both
channels while frames beyond the mask length are unchanged. -/
theorem sidechain_ducking (st : MixSettings) (alpha : ℚ) (v : List ℚ)
    (m b : List (ℚ × ℚ)) :
    (¬((st.ducking_enabled : Prop) ∧ v.length > 0
        ∧ (m.length > 0 ∨ b.length > 0)) →
      duckSection st alpha v m b = (m, b)) ∧
    (((st.ducking_enabled : Prop) ∧ v.length > 0
        ∧ (m.length > 0 ∨ b.length > 0)) →
      duckSection st alpha v m b
        = (applyDuck m (duckMask (envelopeIIR alpha (v.map (fun x => |x|)))
              st.ducking_threshold) st.ducking_strength_music,
           applyDuck b (duckMask (envelopeIIR alpha (v.map (fun x => |x|)))
              st.ducking_threshold) st.ducking_strength_binaural)) ∧
    ((envelopeIIR alpha (v.map (fun x => |x|))).length = v.length ∧
      (envelopeIIR alpha (v.map (fun x => |x|))).get? 0
        = (v.get? 0).map (fun x => alpha * 0 + (1 - alpha) * |x|) ∧
      ∀ i, (envelopeIIR alpha (v.map (fun x => |x|))).get? (i + 1)
        = ((envelopeIIR alpha (v.map (fun x => |x|))).get? i).bind
            (fun p => (v.get? (i + 1)).map
              (fun x => alpha * p + (1 - alpha) * |x|))) ∧
    (∀ i, (duckMask (envelopeIIR alpha (v.map (fun x => |x|)))
          st.ducking_threshold).get? i
      = ((envelopeIIR alpha (v.map (fun x => |x|))).get? i).map
          (fun e => clipTo 0 1 ((e - st.ducking_threshold)
            / max (1/1000000) st.ducking_threshold))) ∧
    (∀ (bed : List (ℚ × ℚ)) (mask : List ℚ) (str : ℚ),
      (applyDuck bed mask str).length = bed.length ∧
      (∀ i (hb : i < bed.length) (ha : i < (applyDuck bed mask str).length)
        (mv : ℚ), mask.get? i = some mv →
        (applyDuck bed mask str).get ⟨i, ha⟩
          = ((1 - str * mv) * (bed.get ⟨i, hb⟩).1,
             (1 - str * mv) * (bed.get ⟨i, hb⟩).2)) ∧
      (∀ i (hb : i < bed.length) (ha : i < (applyDuck bed mask str).length),
        mask.length ≤ i →
        (applyDuck bed mask str).get ⟨i, ha⟩ = bed.get ⟨i, hb⟩)) := by
  refine ⟨?_, ?_, ⟨?_, ?_, ?_⟩, ?_, ?_⟩
  · intro h
    unfold duckSection
    rw [if_neg h]
  · intro h
    unfold duckSection
    rw [if_pos h]
  · rw [envelopeIIR, envelopeIIRFrom_length, List.length_map]
  · rw [envelopeIIR, envelopeIIRFrom_get_zero, List.get?_map, Option.map_map]
    rfl
  · intro i
    rw [envelopeIIR, envelopeIIRFrom_get_succ, List.get?_map]
    cases (envelopeIIRFrom alpha 0 (v.map (fun x => |x|))).get? i with
    | none => simp
    | some p =>
        cases v.get? (i + 1) with
        | none => simp
        | some x => simp
  · intro i
    exact duckMask_get _ _ i
  · intro bed mask str
    exact ⟨applyDuck_length bed mask str,
      fun i hb ha mv hmv => applyDuck_get_overlap bed mask str i hb ha mv hmv,
      fun i hb ha hge => applyDuck_get_beyond bed mask str i hb ha hge⟩

theorem sidechain_ducking_witness :
    (¬((({ ducking_enabled := false } : MixSettings).ducking_enabled : Prop)
        ∧ ([(1 : ℚ)] : List ℚ).length > 0
        ∧ (([((1 : ℚ), (1 : ℚ))] : List (ℚ × ℚ)).length > 0
          ∨ ([] : List (ℚ × ℚ)).length > 0))) ∧
    duckSection { ducking_enabled := false } (1/2) [(1 : ℚ)]
      [((1 : ℚ), (1 : ℚ))] [] = ([((1 : ℚ), (1 : ℚ))], []) ∧
    ((({} : MixSettings).ducking_enabled : Prop) ∧ ([(1 : ℚ)] : List ℚ).length > 0
      ∧ (([((1 : ℚ), (1 : ℚ))] : List (ℚ × ℚ)).length > 0
        ∨ ([] : List (ℚ × ℚ)).length > 0)) ∧
    duckSection {} (1/2) [(1 : ℚ)] [((1 : ℚ), (1 : ℚ))] []
      = (applyDuck [((1 : ℚ), (1 : ℚ))]
          (duckMask (envelopeIIR (1/2) ([(1 : ℚ)].map (fun x => |x|)))
            ({} : MixSettings).ducking_threshold)
          ({} : MixSettings).ducking_strength_music,
         applyDuck []
          (duckMask (envelopeIIR (1/2) ([(1 : ℚ)].map (fun x => |x|)))
            ({} : MixSettings).ducking_threshold)
          ({} : MixSettings).ducking_strength_binaural) ∧
    (([(1 : ℚ)/2] : List ℚ).get? 0 = some (1/2)) ∧
    (applyDuck [((1 : ℚ), (1 : ℚ))] [(1 : ℚ)/2] (1/2)).get? 0
      = some ((3 : ℚ)/4, (3 : ℚ)/4) ∧
    (([(1 : ℚ)/2] : List ℚ).length ≤ 1) ∧
    (applyDuck [((1 : ℚ), (1 : ℚ)), ((2 : ℚ), (2 : ℚ))] [(1 : ℚ)/2] (1/2)).get? 1
      = some ((2 : ℚ), (2 : ℚ)) := by
  have hoff : ¬((({ ducking_enabled := false } : MixSettings).ducking_enabled : Prop)
      ∧ ([(1 : ℚ)] : List ℚ).length > 0
      ∧ (([((1 : ℚ), (1 : ℚ))] : List (ℚ × ℚ)).length > 0
        ∨ ([] : List (ℚ × ℚ)).length > 0)) := by
    intro h
    exact absurd h.1 (by simp)
  have hon : ((({} : MixSettings).ducking_enabled : Prop)
      ∧ ([(1 : ℚ)] : List ℚ).length > 0
      ∧ (([((1 : ℚ), (1 : ℚ))] : List (ℚ × ℚ)).length > 0
        ∨ ([] : List (ℚ × ℚ)).length > 0)) :=
    ⟨rfl, by norm_num, Or.inl (by norm_num)⟩
  have hb1 : (0 : ℕ) < ([((1 : ℚ), (1 : ℚ))] : List (ℚ × ℚ)).length := by norm_num
  have ha1 : (0 : ℕ) < (applyDuck [((1 : ℚ), (1 : ℚ))] [(1 : ℚ)/2] (1/2)).length := by
    rw [applyDuck_length]
    norm_num
  have hb2 : (1 : ℕ)
      < ([((1 : ℚ), (1 : ℚ)), ((2 : ℚ), (2 : ℚ))] : List (ℚ × ℚ)).length := by
    norm_num
  have ha2 : (1 : ℕ)
      < (applyDuck [((1 : ℚ), (1 : ℚ)), ((2 : ℚ), (2 : ℚ))] [(1 : ℚ)/2]
          (1/2)).length := by
    rw [applyDuck_length]
    norm_num
  refine ⟨hoff,
    (sidechain_ducking { ducking_enabled := false } (1/2) [(1 : ℚ)]
      [((1 : ℚ), (1 : ℚ))] []).1 hoff,
    hon,
    (sidechain_ducking {} (1/2) [(1 : ℚ)] [((1 : ℚ), (1 : ℚ))] []).2.1 hon,
    rfl, ?_, by norm_num, ?_⟩
  · rw [List.get?_eq_get ha1,
      ((sidechain_ducking {} 0 [] [((1 : ℚ), (1 : ℚ))] []).2.2.2.2
        [((1 : ℚ), (1 : ℚ))] [(1 : ℚ)/2] (1/2)).2.1 0 hb1 ha1 (1/2) rfl]
    norm_num
  · rw [List.get?_eq_get ha2,
      ((sidechain_ducking {} 0 [] [((1 : ℚ), (1 : ℚ))] []).2.2.2.2
        [((1 : ℚ), (1 : ℚ)), ((2 : ℚ), (2 : ℚ))] [(1 : ℚ)/2] (1/2)).2.2
        1 hb2 ha2 (by norm_num)]
    rfl

/-- C2 counterexample: with `ducking_threshold = 1e-7` (a legitimate
`MixSettings` value below the `1e-6` guard), envelope coefficient
`α = 1/2`, placed voice `[1e-6]` and music bed `[(1, 1)]`, the code's mask
is `clip((5e-7 - 1e-7)/1e-6) = 0.4` and the bed becomes
`(1 - 0.65*0.4) = 37/50` per channel, while the claim's formula
`clip((env - thr)/thr) = clip(4) = 1` would give `1 - 0.65 = 7/20`: the
claimed mask divides by the raw threshold, the code by `max(1e-6, thr)`. -/
theorem duck_mask_divisor_counterexample :
    (duckSection { ducking_threshold := 1/10000000 } (1/2) [(1 : ℚ)/1000000]
        [((1 : ℚ), (1 : ℚ))] []).1 = [((37 : ℚ)/50, (37 : ℚ)/50)] ∧
    (duckSectionSpec { ducking_threshold := 1/10000000 } (1/2) [(1 : ℚ)/1000000]
        [((1 : ℚ), (1 : ℚ))] []).1 = [((7 : ℚ)/20, (7 : ℚ)/20)] ∧
    ([((37 : ℚ)/50, (37 : ℚ)/50)] : List (ℚ × ℚ))
      ≠ [((7 : ℚ)/20, (7 : ℚ)/20)] := by
  have hcond : ((({ ducking_threshold := 1/10000000 } : MixSettings).ducking_enabled : Prop)
      ∧ ([(1 : ℚ)/1000000] : List ℚ).length > 0
      ∧ (([((1 : ℚ), (1 : ℚ))] : List (ℚ × ℚ)).length > 0
        ∨ ([] : List (ℚ × ℚ)).length > 0)) :=
    ⟨rfl, by norm_num, Or.inl (by norm_num)⟩
  have henv : envelopeIIR (1/2) ([(1 : ℚ)/1000000].map (fun x => |x|))
      = [1/2000000] := by
    have habs : ([(1 : ℚ)/1000000].map (fun x => |x|)) = [(1 : ℚ)/1000000] := by
      simp only [List.map_cons, List.map_nil]
      rw [abs_of_pos (by norm_num)]
    rw [habs]
    simp only [envelopeIIR, envelopeIIRFrom]
    norm_num
  have hmask : duckMask [(1 : ℚ)/2000000] (1/10000000) = [2/5] := by
    simp only [duckMask, List.map_cons, List.map_nil, clipTo]
    rw [max_eq_left (by norm_num : (1 : ℚ)/10000000 ≤ 1/1000000)]
    rw [show ((1 : ℚ)/2000000 - 1/10000000) / (1/1000000) = 2/5 by norm_num]
    rw [min_eq_right (by norm_num : (2 : ℚ)/5 ≤ 1)]
    rw [max_eq_right (by norm_num : (0 : ℚ) ≤ 2/5)]
  have hmaskS : duckMaskSpec [(1 : ℚ)/2000000] (1/10000000) = [1] := by
    simp only [duckMaskSpec, List.map_cons, List.map_nil, clipTo]
    rw [show ((1 : ℚ)/2000000 - 1/10000000) / (1/10000000) = 4 by norm_num]
    rw [min_eq_left (by norm_num : (1 : ℚ) ≤ 4)]
    rw [max_eq_right (by norm_num : (0 : ℚ) ≤ 1)]
  have happ : applyDuck [((1 : ℚ), (1 : ℚ))] [(2 : ℚ)/5] (13/20)
      = [((37 : ℚ)/50, (37 : ℚ)/50)] := by
    unfold applyDuck
    rw [mapIdx_singleton]
    norm_num
  have happS : applyDuck [((1 : ℚ), (1 : ℚ))] [(1 : ℚ)] (13/20)
      = [((7 : ℚ)/20, (7 : ℚ)/20)] := by
    unfold applyDuck
    rw [mapIdx_singleton]
    norm_num
  refine ⟨?_, ?_, by simp [Prod.ext_iff]; norm_num⟩
  · show (duckSection _ _ _ _ _).1 = _
    unfold duckSection
    rw [if_pos hcond]
    show applyDuck [((1 : ℚ), (1 : ℚ))]
        (duckMask (envelopeIIR (1/2) ([(1 : ℚ)/1000000].map (fun x => |x|)))
          (1/10000000)) (13/20) = _
    rw [henv, hmask, happ]
  · show (duckSectionSpec _ _ _ _ _).1 = _
    unfold duckSectionSpec
    rw [if_pos hcond]
    show applyDuck [((1 : ℚ), (1 : ℚ))]
        (duckMaskSpec (envelopeIIR (1/2) ([(1 : ℚ)/1000000].map (fun x => |x|)))
          (1/10000000)) (13/20) = _
    rw [henv, hmaskS, happS]

/-- C5 (amended): `wav_stats` is total (the Python `try/except` surfaces
every exception as a record) and always reports `exists` and `bytes`; the
`error` field is populated for a too-small file (≤ 44 bytes:
"File too small"), an unsupported sample width, a decode failure, and a
zero-sample decode ("No frames decoded").  A *missing* file is reported via
`exists = false` and `bytes = 0` with `error = None` — not via the error
field as the claim states. -/
theorem wav_stats_reporting (file : Option (ℕ × Except String WavInfo))
    (ms : Option ℚ) :
    ((wavStats file ms).fileExists = file.isSome ∧
      (wavStats file ms).bytes
        = (match file with | none => 0 | some (size, _) => size)) ∧
    (wavStats none ms = { fileExists := false }) ∧
    (∀ (size : ℕ) (parse : Except String WavInfo), size ≤ 44 →
      wavStats (some (size, parse)) ms
        = { fileExists := true, bytes := size,
            error := some "File too small" }) ∧
    (∀ (size : ℕ) (wf : WavInfo), ¬ size ≤ 44 →
      ¬(wf.sw = 1 ∨ wf.sw = 2 ∨ wf.sw = 3 ∨ wf.sw = 4) →
      (wavStats (some (size, .ok wf)) ms).error
          = some ("Unsupported sample width: " ++ toString wf.sw) ∧
        (wavStats (some (size, .ok wf)) ms).fileExists = true ∧
        (wavStats (some (size, .ok wf)) ms).bytes = size) ∧
    (∀ (size : ℕ) (e : String), ¬ size ≤ 44 →
      (wavStats (some (size, .error e)) ms).error = some e) ∧
    (∀ (size : ℕ) (wf : WavInfo), ¬ size ≤ 44 →
      (wf.sw = 1 ∨ wf.sw = 2 ∨ wf.sw = 3 ∨ wf.sw = 4) →
      statsDecode wf ms = .ok [] →
      (wavStats (some (size, .ok wf)) ms).error = some "No frames decoded" ∧
        (wavStats (some (size, .ok wf)) ms).fileExists = true ∧
        (wavStats (some (size, .ok wf)) ms).bytes = size) := by
  refine ⟨?_, rfl, ?_, ?_, ?_, ?_⟩
  · rcases file with - | ⟨size, parse⟩
    · refine ⟨?_, ?_⟩ <;> trivial
    · by_cases hsz : size ≤ 44
      · simp only [wavStats, if_pos hsz]
        refine ⟨?_, ?_⟩ <;> trivial
      · rcases parse with e | wf
        · simp only [wavStats, if_neg hsz]
          refine ⟨?_, ?_⟩ <;> trivial
        · by_cases hsw : (wf.sw = 1 ∨ wf.sw = 2 ∨ wf.sw = 3 ∨ wf.sw = 4)
          · cases hdec : statsDecode wf ms with
            | error e =>
                simp only [wavStats, if_neg hsz, if_pos hsw, hdec]
                refine ⟨?_, ?_⟩ <;> trivial
            | ok x =>
                by_cases hx : x.length = 0
                · simp only [wavStats, if_neg hsz, if_pos hsw, hdec, if_pos hx]
                  refine ⟨?_, ?_⟩ <;> trivial
                · simp only [wavStats, if_neg hsz, if_pos hsw, hdec, if_neg hx]
                  refine ⟨?_, ?_⟩ <;> trivial
          · simp only [wavStats, if_neg hsz, if_neg hsw]
            refine ⟨?_, ?_⟩ <;> trivial
  · intro size parse hsz
    simp only [wavStats, if_pos hsz]
  · intro size wf hsz hsw
    simp only [wavStats, if_neg hsz, if_neg hsw]
    refine ⟨?_, ?_, ?_⟩ <;> trivial
  · intro size e hsz
    simp only [wavStats, if_neg hsz]
  · intro size wf hsz hsw hdec
    simp only [wavStats, if_neg hsz, if_pos hsw, hdec, if_pos (List.length_nil)]
    refine ⟨?_, ?_, ?_⟩ <;> trivial

theorem wav_stats_reporting_witness :
    ((20 : ℕ) ≤ 44) ∧
    wavStats (some (20, .error "parse failure")) none
      = { fileExists := true, bytes := 20, error := some "File too small" } ∧
    (¬ (100 : ℕ) ≤ 44) ∧
    (¬((⟨2, 7, 8000, 10, []⟩ : WavInfo).sw = 1
        ∨ (⟨2, 7, 8000, 10, []⟩ : WavInfo).sw = 2
        ∨ (⟨2, 7, 8000, 10, []⟩ : WavInfo).sw = 3
        ∨ (⟨2, 7, 8000, 10, []⟩ : WavInfo).sw = 4)) ∧
    (wavStats (some (100, .ok ⟨2, 7, 8000, 10, []⟩)) none).error
      = some ("Unsupported sample width: "
          ++ toString (⟨2, 7, 8000, 10, []⟩ : WavInfo).sw) ∧
    (wavStats (some (100, .error "unreadable")) none).error
      = some "unreadable" ∧
    ((⟨1, 2, 8000, 0, []⟩ : WavInfo).sw = 1
      ∨ (⟨1, 2, 8000, 0, []⟩ : WavInfo).sw = 2
      ∨ (⟨1, 2, 8000, 0, []⟩ : WavInfo).sw = 3
      ∨ (⟨1, 2, 8000, 0, []⟩ : WavInfo).sw = 4) ∧
    statsDecode ⟨1, 2, 8000, 0, []⟩ none = .ok [] ∧
    (wavStats (some (100, .ok ⟨1, 2, 8000, 0, []⟩)) none).error
      = some "No frames decoded" := by
  have h44 : (20 : ℕ) ≤ 44 := by decide
  have h100 : ¬ (100 : ℕ) ≤ 44 := by decide
  have hsw7 : ¬((⟨2, 7, 8000, 10, []⟩ : WavInfo).sw = 1
      ∨ (⟨2, 7, 8000, 10, []⟩ : WavInfo).sw = 2
      ∨ (⟨2, 7, 8000, 10, []⟩ : WavInfo).sw = 3
      ∨ (⟨2, 7, 8000, 10, []⟩ : WavInfo).sw = 4) := by decide
  have hsw2 : ((⟨1, 2, 8000, 0, []⟩ : WavInfo).sw = 1
      ∨ (⟨1, 2, 8000, 0, []⟩ : WavInfo).sw = 2
      ∨ (⟨1, 2, 8000, 0, []⟩ : WavInfo).sw = 3
      ∨ (⟨1, 2, 8000, 0, []⟩ : WavInfo).sw = 4) := by decide
  have hdec : statsDecode (⟨1, 2, 8000, 0, []⟩ : WavInfo) none = .ok [] := rfl
  exact ⟨h44,
    (wav_stats_reporting (some (20, .error "parse failure")) none).2.2.1
      20 (.error "parse failure") h44,
    h100, hsw7,
    ((wav_stats_reporting (some (100, .ok ⟨2, 7, 8000, 10, []⟩)) none).2.2.2.1
      100 ⟨2, 7, 8000, 10, []⟩ h100 hsw7).1,
    (wav_stats_reporting (some (100, .error "unreadable")) none).2.2.2.2.1
      100 "unreadable" h100,
    hsw2, hdec,
    ((wav_stats_reporting (some (100, .ok ⟨1, 2, 8000, 0, []⟩)) none).2.2.2.2.2
      100 ⟨1, 2, 8000, 0, []⟩ h100 hsw2 hdec).1⟩

/-- C5 counterexample: for a missing file, `wav_stats` returns
`exists = false`, `bytes = 0` — and `error = None`.  The error field is
*not* populated in the missing-file case, contrary to the claim's list of
error-populated conditions. -/
theorem wav_stats_missing_error_counterexample :
    (wavStats none none).fileExists = false ∧
    (wavStats none none).bytes = 0 ∧
    (wavStats none none).error = none :=
  ⟨rfl, rfl, rfl⟩

end ZenAudio
